import Mathlib

/-!
# FPSci: display-lag compositor and weapon / target / projectile lifecycle

A shallow embedding of `newGfx/source/App.cpp` and `source/Weapon.cpp`.

* C++ `int` is `Int`; the engine container `G3D::Array` is a `List` whose
  indexing operations return `Option` (`none` is the engine's bounds assertion
  failing).
* Times and distances (`float`, `RealTime`) are rationals; `finf()` is `⊤` of
  `WithTop ℚ`.
* A rendered frame is identified by a natural number; a framebuffer holds the
  frame last rendered into it, or nothing when it is fresh from
  `Texture::createEmpty`.
* The scene is the list of the names of the entities inserted into it.
-/

namespace FPSci

/-! ## Engine containers -/

namespace G3D

/-- Engine `Array::operator[]` (read): the element at `n`, `none` when `n` is
outside `0 .. size-1`. -/
def arrayIndex {α : Type} (a : List α) (n : Int) : Option α :=
  if 0 ≤ n then a[n.toNat]? else none

/-- Engine `Array::operator[]` used as the destination of a write: the array
with slot `n` replaced, `none` when `n` is outside `0 .. size-1`. -/
def arrayStore {α : Type} (a : List α) (n : Int) (v : α) : Option (List α) :=
  if 0 ≤ n ∧ n < (a.length : Int) then some (a.set n.toNat v) else none

/-- Engine `Array::fastRemove(index)`: `data[index] = data[num - 1]` followed
by `resize(size() - 1)`; `none` when `index` is outside `0 .. size-1`. -/
def fastRemove {α : Type} (a : List α) (index : Int) : Option (List α) :=
  if 0 ≤ index ∧ index < (a.length : Int) then
    match a.getLast? with
    | some last => some ((a.set index.toNat last).dropLast)
    | none => none
  else none

/-- The tail of an array after `fastRemove` of the slot before it: the last
element moved to the front, the others in order (nothing when the removed slot
was the last one). -/
def lastToFront {α : Type} (rest : List α) : List α :=
  match rest.getLast? with
  | none => []
  | some l => l :: rest.dropLast

end G3D

/-! ## Data model of `App` -/

/-- Identifier of one rendered frame. -/
abbrev Frame := Nat

/-- Contents of a delay-buffer framebuffer: `none` straight after
`Texture::createEmpty`, `some f` once frame `f` has been rendered into it. -/
abbrev Framebuffer := Option Frame

/-- An `ArticulatedModel` of the target model array, identified by the
exponent `e` of its scale `pow(1.0f + TARGET_MODEL_ARRAY_SCALING, e)`. -/
structure ArticulatedModel where
  scaleExponent : Int
  deriving DecidableEq, Repr

/-- A `VisibleEntity`: its name, the model it was created with, and how far
its frame has been translated along its look vector since it was created. -/
structure VisibleEntity where
  name : String
  model : ArticulatedModel
  frameOffset : ℚ := 0
  deriving DecidableEq, Repr

/-- The `Projectile` of `App.cpp`, built as `Projectile(laser, endTime)`. -/
structure AppProjectile where
  entity : VisibleEntity
  endTime : ℚ
  deriving DecidableEq, Repr

/-- The members of `App` that the modelled member functions read or write,
with `sceneEntities` standing for the contents of `scene()`. -/
structure App where
  m_displayLagFrames : Int
  m_currentDelayBufferIndex : Int
  m_ldrDelayBufferQueue : List Framebuffer
  m_targetModelArray : List ArticulatedModel
  m_targetArray : List VisibleEntity
  m_projectileArray : List AppProjectile
  m_lastUniqueID : Int
  m_hitScan : Bool
  m_renderHitscan : Bool
  sceneEntities : List String
  deriving DecidableEq, Repr

/-- Modelled from the spec: the member initialisers of `App.h` are not part of
the sources; the state before the first frame has an empty delay-buffer queue,
current index 0 and `lagFrames` 0, and no models, targets or projectiles. -/
def App.initial : App where
  m_displayLagFrames := 0
  m_currentDelayBufferIndex := 0
  m_ldrDelayBufferQueue := []
  m_targetModelArray := []
  m_targetArray := []
  m_projectileArray := []
  m_lastUniqueID := 0
  m_hitScan := true
  m_renderHitscan := false
  sceneEntities := []

/-! ## Display-lag compositor -/

/-- The setter `App::setDisplayLatencyFrames`: `m_displayLagFrames = f;`. -/
def App.setDisplayLatencyFrames (app : App) (f : Int) : App :=
  { app with m_displayLagFrames := f }

/-- The body of the allocation loop run `n` times: each iteration pushes one
framebuffer over an empty texture. -/
def pushEmptyFramebuffers : Nat → List Framebuffer → List Framebuffer
  | 0, q => q
  | n + 1, q => pushEmptyFramebuffers n (q ++ [none])

/-- Lines 210-216 of `App::onGraphics3D`: when the queue has at most
`m_displayLagFrames` slots, the loop
`for (i = m_displayLagFrames - size(); i >= 0; --i)` pushes
`m_displayLagFrames - size() + 1` framebuffers, and the `debugAssert` then
demands a queue of exactly `m_displayLagFrames + 1` slots. -/
def App.allocateDelayBuffers (app : App) : Option App :=
  if (app.m_ldrDelayBufferQueue.length : Int) ≤ app.m_displayLagFrames then
    let q := pushEmptyFramebuffers
      (app.m_displayLagFrames - (app.m_ldrDelayBufferQueue.length : Int) + 1).toNat
      app.m_ldrDelayBufferQueue
    if (q.length : Int) = app.m_displayLagFrames + 1 then
      some { app with m_ldrDelayBufferQueue := q }
    else none
  else some app

/-- Line 219:
`m_currentDelayBufferIndex = min(m_displayLagFrames, m_currentDelayBufferIndex)`. -/
def App.clampDelayBufferIndex (app : App) : App :=
  { app with
    m_currentDelayBufferIndex := min app.m_displayLagFrames app.m_currentDelayBufferIndex }

/-- Lines 221-224: `rd->pushState(m_ldrDelayBufferQueue[m_currentDelayBufferIndex])`
followed by `GApp::onGraphics3D`, which renders the frame into that
framebuffer. -/
def App.renderIntoDelayBuffer (app : App) (frame : Frame) : Option App :=
  match G3D.arrayStore app.m_ldrDelayBufferQueue app.m_currentDelayBufferIndex (some frame) with
  | some q => some { app with m_ldrDelayBufferQueue := q }
  | none => none

/-- Lines 231-232: advance the index with the C++ remainder (truncating, as
`Int.tmod`) and draw the texture of the framebuffer now at the index. -/
def App.presentDelayedFrame (app : App) : Option (App × Framebuffer) :=
  let i := Int.tmod (app.m_currentDelayBufferIndex + 1) (app.m_displayLagFrames + 1)
  match G3D.arrayIndex app.m_ldrDelayBufferQueue i with
  | some fb => some ({ app with m_currentDelayBufferIndex := i }, fb)
  | none => none

/-- What one call of `App::onGraphics3D` did: the queue slot the frame was
rendered into and the slot drawn to the screen (both `none` when the frame went
straight to the screen), and the image that reached the screen. -/
structure FrameTrace where
  renderSlot : Option Int
  presentSlot : Option Int
  presented : Framebuffer
  deriving DecidableEq, Repr

/-- The callback `App::onGraphics3D` for the frame `frame`; `none` when a queue access is
out of bounds or the `debugAssert` fails. -/
def App.onGraphics3D (app : App) (frame : Frame) : Option (App × FrameTrace) :=
  if 0 < app.m_displayLagFrames then
    match app.allocateDelayBuffers with
    | none => none
    | some a1 =>
      let a2 := a1.clampDelayBufferIndex
      match a2.renderIntoDelayBuffer frame with
      | none => none
      | some a3 =>
        match a3.presentDelayedFrame with
        | none => none
        | some (a4, fb) =>
          some (a4, { renderSlot := some a2.m_currentDelayBufferIndex,
                      presentSlot := some a4.m_currentDelayBufferIndex,
                      presented := fb })
  else
    some (app, { renderSlot := none, presentSlot := none, presented := some frame })

/-- Consecutive `App::onGraphics3D` calls, one per frame of the list, with no
other call in between; the traces are in tick order. -/
def App.runFrames (app : App) : List Frame → Option (App × List FrameTrace)
  | [] => some (app, [])
  | f :: fs =>
    match app.onGraphics3D f with
    | none => none
    | some (a, tr) =>
      match App.runFrames a fs with
      | none => none
      | some (a', trs) => some (a', tr :: trs)

/-- One call made on the compositor by the host application. -/
inductive CompositorCall where
  | setDisplayLatencyFrames (f : Int)
  | onGraphics3D (frame : Frame)
  deriving DecidableEq, Repr

/-- The state after one compositor call. -/
def App.compositorStep (app : App) : CompositorCall → Option App
  | .setDisplayLatencyFrames f => some (app.setDisplayLatencyFrames f)
  | .onGraphics3D frame => (app.onGraphics3D frame).map Prod.fst

/-- The state after a sequence of compositor calls, in order. -/
def App.compositorRun (app : App) : List CompositorCall → Option App
  | [] => some app
  | c :: cs =>
    match app.compositorStep c with
    | none => none
    | some a => App.compositorRun a cs

/-! ## Scene -/

/-- Engine `Scene::insert(entity)`: the entity joins the scene. -/
def Scene.insert (scene : List String) (name : String) : List String :=
  scene ++ [name]

/-- Engine `Scene::removeEntity(name)`: the entity of that name leaves the
scene. -/
def Scene.removeEntity (scene : List String) (name : String) : List String :=
  scene.filter (fun n => n != name)

/-- Engine `Entity::intersect(ray, maxDistance)` for the entity called `name`,
with `rayHit` giving the distance at which the ray meets an entity (`none` when
it misses): true only when the entity is met nearer than `maxDistance`, which
is then lowered to that distance. -/
def Entity.intersect (rayHit : String → Option ℚ) (name : String)
    (maxDistance : WithTop ℚ) : Bool × WithTop ℚ :=
  match rayHit name with
  | some d => if ((d : ℚ) : WithTop ℚ) < maxDistance then (true, ((d : ℚ) : WithTop ℚ))
              else (false, maxDistance)
  | none => (false, maxDistance)

/-- Engine `Scene::intersect(ray, distance, false, exclude, info)`: every
entity of the scene that is not excluded is tested in turn; the result is the
lowered distance and the name of the nearest entity hit. -/
def Scene.intersect (rayHit : String → Option ℚ) (exclude : List String) :
    List String → WithTop ℚ → Option String → WithTop ℚ × Option String
  | [], distance, hit => (distance, hit)
  | e :: es, distance, hit =>
    if exclude.contains e then Scene.intersect rayHit exclude es distance hit
    else
      match Entity.intersect rayHit e distance with
      | (true, d) => Scene.intersect rayHit exclude es d (some e)
      | (false, d) => Scene.intersect rayHit exclude es d hit

/-! ## Targets of `App` -/

/-- The text `printf` gives for `%03d`. -/
def format03d (n : Int) : String :=
  let digits := toString n.natAbs
  if n < 0 then "-" ++ String.mk (List.replicate (2 - digits.length) '0') ++ digits
  else String.mk (List.replicate (3 - digits.length) '0') ++ digits

/-- The constant `App::TARGET_MODEL_ARRAY_SCALING = 0.1f` of line 27: the
single-precision number nearest to one tenth, `13421773 / 2^27`. -/
def App.TARGET_MODEL_ARRAY_SCALING : ℚ := 13421773 / 134217728

/-- The single-precision number nearest to `x`, for `1 ≤ x < 2`, where these
numbers are the multiples of `2^-23`. -/
def float32NearOne (x : ℚ) : ℚ := (round (x * 8388608) : Int) / 8388608

/-- The member `App::destroyTarget(index)` (`playMode` is the constant
`false`, so no sound is played); `none` when `m_targetArray[index]` is out of
bounds. -/
def App.destroyTarget (app : App) (index : Int) : Option App :=
  match G3D.arrayIndex app.m_targetArray index with
  | none => none
  | some target =>
    match G3D.fastRemove app.m_targetArray index with
    | none => none
    | some arr =>
      some { app with
             m_targetArray := arr
             sceneEntities := Scene.removeEntity app.sceneEntities target.name }

/-- Successive `App::destroyTarget` calls, one per index of the list. -/
def App.destroyTargets (app : App) : List Int → Option App
  | [] => some app
  | i :: is =>
    match app.destroyTarget i with
    | none => none
    | some a => App.destroyTargets a is

/-- The targets removed by successive `App::destroyTarget` calls, in order
(those found at the given index when the call was made). -/
def App.destroyedTargets (app : App) : List Int → List VisibleEntity
  | [] => []
  | i :: is =>
    match G3D.arrayIndex app.m_targetArray i, app.destroyTarget i with
    | some t, some a => t :: App.destroyedTargets a is
    | _, _ => []

/-! ## `Weapon` -/

/-- A `TargetEntity`, known by the name of its entity. -/
structure TargetEntity where
  name : String
  deriving DecidableEq, Repr

/-- Modelled from the spec: the class `Projectile` used by `Weapon.cpp` is not
part of the sources; it is built as
`Projectile(entity, speed, collision, gravity, remainingTime)` and answers
`remainingTime()`. -/
structure Projectile where
  entity : String
  speed : ℚ
  collision : Bool
  gravity : ℚ
  remainingTime : ℚ
  deriving DecidableEq, Repr

/-- Modelled from the spec: `Projectile::onSimulation(dt)` is not part of the
sources; one call decrements the remaining lifetime by `dt`. -/
def Projectile.onSimulation (p : Projectile) (dt : ℚ) : Projectile :=
  { p with remainingTime := p.remainingTime - dt }

/-- The fields of the weapon configuration `m_config` read by `Weapon::fire`
and `Weapon::onSimulation`. -/
structure WeaponConfig where
  hitScan : Bool
  renderBullets : Bool
  autoFire : Bool
  firePeriod : ℚ
  bulletSpeed : ℚ
  deriving DecidableEq, Repr

/-- The members of `Weapon` that `fire` and `onSimulation` read or write, with
`m_scene` the names of the entities in the scene. -/
structure Weapon where
  m_config : WeaponConfig
  m_projectileArray : List Projectile
  m_scene : List String
  m_lastBulletId : Int
  deriving DecidableEq, Repr

/-- The loop of `Weapon::onSimulation` from index `p` on; one unit of fuel per
evaluation of the loop condition, `none` when the fuel runs out or an array
access is out of bounds. -/
def Weapon.onSimulationLoop (rdt : ℚ) : Nat → Weapon → Int → Option Weapon
  | 0, _, _ => none
  | fuel + 1, w, p =>
    if p < (w.m_projectileArray.length : Int) then
      match G3D.arrayIndex w.m_projectileArray p with
      | none => none
      | some projectile =>
        match G3D.arrayStore w.m_projectileArray p (projectile.onSimulation rdt) with
        | none => none
        | some arr =>
          if (projectile.onSimulation rdt).remainingTime ≤ 0 then
            match G3D.fastRemove arr p with
            | none => none
            | some arr' =>
              Weapon.onSimulationLoop rdt fuel
                { w with
                  m_scene := Scene.removeEntity w.m_scene (projectile.onSimulation rdt).entity
                  m_projectileArray := arr' }
                ((p - 1) + 1)
          else
            Weapon.onSimulationLoop rdt fuel { w with m_projectileArray := arr } (p + 1)
    else some w

/-- The member `Weapon::onSimulation(rdt)`: the loop from `p = 0`, with fuel for one
evaluation of the loop condition per projectile and the final one. -/
def Weapon.onSimulation (w : Weapon) (rdt : ℚ) : Option Weapon :=
  Weapon.onSimulationLoop rdt (w.m_projectileArray.length + 1) w 0

/-- A `Model::HitInfo`: the name of the entity it describes, if any. -/
structure HitInfo where
  entity : Option String
  deriving DecidableEq, Repr

/-- The loop of lines 101-105 of `Weapon::fire` over the targets from index `t`
on: the final `closest` and `closestIndex`. -/
def Weapon.targetLoop (rayHit : String → Option ℚ) :
    List TargetEntity → Int → WithTop ℚ → Int → WithTop ℚ × Int
  | [], _, closest, closestIndex => (closest, closestIndex)
  | target :: rest, t, closest, closestIndex =>
    match Entity.intersect rayHit target.name closest with
    | (true, c) => Weapon.targetLoop rayHit rest (t + 1) c t
    | (false, c) => Weapon.targetLoop rayHit rest (t + 1) c closestIndex

/-- What a call of `Weapon::fire` leaves behind: the weapon, the returned
target pointer (`none` is `nullptr`), the three reference parameters, and the
local `closest` after the hit tests (`none` outside hitscan mode, where it does
not exist). -/
structure FireResult where
  weapon : Weapon
  target : Option TargetEntity
  targetIdx : Int
  hitDist : ℚ
  hitInfo : HitInfo
  closest : Option (WithTop ℚ)
  deriving DecidableEq, Repr

/-- Lines 62-97 of `Weapon::fire`: with `renderBullets`, a weapon that is not a
laser pushes a new bullet projectile of lifetime
`fmin(closest, 100.0f) / bulletSpeed` and inserts its entity in the scene; the
laser only draws a debug beam. The quotient is that of the rationals, so for
`bulletSpeed = 0` the lifetime here is 0 where the single-precision quotient is
infinite. -/
def Weapon.createBullet (w : Weapon) (closest : WithTop ℚ) : Weapon :=
  if w.m_config.renderBullets then
    if 0 < w.m_config.firePeriod ∧ w.m_config.autoFire then
      let id := w.m_lastBulletId + 1
      let bullet := "bullet" ++ format03d id
      let grav : ℚ := if w.m_config.hitScan then 0 else 10
      { w with
        m_lastBulletId := id
        m_projectileArray := w.m_projectileArray ++
          [{ entity := bullet, speed := w.m_config.bulletSpeed,
             collision := !w.m_config.hitScan, gravity := grav,
             remainingTime := (min closest (100 : ℚ)).untop' 100 / w.m_config.bulletSpeed }]
        m_scene := Scene.insert w.m_scene bullet }
    else w
  else w

/-- The member `Weapon::fire(targets, targetIdx, hitDist, hitInfo, dontHit)` for a camera
look ray described by `rayHit`; the three reference parameters come in with the
values the caller holds. `none` when `targets[closestIndex]` is out of
bounds. -/
def Weapon.fire (w : Weapon) (rayHit : String → Option ℚ) (targets : List TargetEntity)
    (targetIdx : Int) (hitDist : ℚ) (hitInfo : HitInfo) (dontHit : List String) :
    Option FireResult :=
  if w.m_config.hitScan then
    let dontHit1 := dontHit ++ targets.map (fun t => t.name)
    let dontHit2 := dontHit1 ++ w.m_projectileArray.map (fun p => p.entity)
    let sceneHit := Scene.intersect rayHit dontHit2 w.m_scene ⊤ none
    let w1 := w.createBullet sceneHit.1
    let found := Weapon.targetLoop rayHit targets 0 sceneHit.1 (-1)
    if 0 ≤ found.2 then
      match G3D.arrayIndex targets found.2 with
      | none => none
      | some target =>
        some { weapon := w1, target := some target, targetIdx := found.2,
               hitDist := hitDist, hitInfo := hitInfo, closest := some found.1 }
    else
      some { weapon := w1, target := none, targetIdx := targetIdx,
             hitDist := hitDist, hitInfo := hitInfo, closest := some found.1 }
  else
    some { weapon := w, target := none, targetIdx := targetIdx,
           hitDist := hitDist, hitInfo := hitInfo, closest := none }

/-! ## Projectiles and hitscan of `App` -/

/-- Line 255 of `App::onSimulation`,
`entity->setFrame(entity->frame() + entity->frame().lookVector() * 1.0f)`: the
entity of the projectile moves one unit along its look vector. -/
def AppProjectile.animate (projectile : AppProjectile) : AppProjectile :=
  { projectile with
    entity := { projectile.entity with frameOffset := projectile.entity.frameOffset + 1 } }

/-- The loop of `App::onSimulation` from index `p` on, at time `now`; one unit
of fuel per evaluation of the loop condition, `none` when the fuel runs out or
an array access is out of bounds. -/
def App.onSimulationLoop (now : ℚ) : Nat → App → Int → Option App
  | 0, _, _ => none
  | fuel + 1, app, p =>
    if p < (app.m_projectileArray.length : Int) then
      match G3D.arrayIndex app.m_projectileArray p with
      | none => none
      | some projectile =>
        if projectile.endTime < now then
          match G3D.fastRemove app.m_projectileArray p with
          | none => none
          | some arr =>
            App.onSimulationLoop now fuel { app with m_projectileArray := arr } ((p - 1) + 1)
        else
          match G3D.arrayStore app.m_projectileArray p projectile.animate with
          | none => none
          | some arr =>
            App.onSimulationLoop now fuel { app with m_projectileArray := arr } (p + 1)
    else some app

/-- The member `App::onSimulation` with `now` the value of `System::time()`:
the loop from `p = 0`, with fuel for one evaluation of the loop condition per
projectile and the final one. -/
def App.onSimulation (app : App) (now : ℚ) : Option App :=
  App.onSimulationLoop now (app.m_projectileArray.length + 1) app 0

/-- The loop of lines 296-300 of `App::onUserInput` over the targets from index
`t` on: the final `closest` and `closestIndex`. -/
def App.targetLoop (rayHit : String → Option ℚ) :
    List VisibleEntity → Int → WithTop ℚ → Int → WithTop ℚ × Int
  | [], _, closest, closestIndex => (closest, closestIndex)
  | target :: rest, t, closest, closestIndex =>
    match Entity.intersect rayHit target.name closest with
    | (true, c) => App.targetLoop rayHit rest (t + 1) c t
    | (false, c) => App.targetLoop rayHit rest (t + 1) c closestIndex

/-- Lines 287-333 of `App::onUserInput` (`playMode` is the constant `false`):
`debugControllerEnabled` and `leftMousePressed` are the two tests of the fire
condition, `rayHit` describes the camera look ray, `laserModel` is
`m_laserModel` and `time` the value of `System::time()`. `none` when
`destroyTarget` fails. -/
def App.onUserInput (app : App) (debugControllerEnabled leftMousePressed : Bool)
    (rayHit : String → Option ℚ) (laserModel : ArticulatedModel) (time : ℚ) : Option App :=
  if debugControllerEnabled && leftMousePressed then
    let afterHitscan : Option App :=
      if app.m_hitScan then
        let found := App.targetLoop rayHit app.m_targetArray 0 ⊤ (-1)
        if 0 ≤ found.2 then app.destroyTarget found.2 else some app
      else some app
    match afterHitscan with
    | none => none
    | some a =>
      if a.m_renderHitscan then
        let id := a.m_lastUniqueID + 1
        let laser : VisibleEntity := { name := "laser" ++ format03d id, model := laserModel }
        some { a with
               m_lastUniqueID := id
               m_projectileArray := a.m_projectileArray ++ [{ entity := laser, endTime := time + 1 }]
               sceneEntities := Scene.insert a.sceneEntities laser.name }
      else some a
  else some app

/-! ## Example states -/

/-- A compositor state met after the lag was lowered to 2: the index is still
5 and the queue has a single slot, holding frame 3. -/
def App.exampleLoweredLag : App :=
  { App.initial with
    m_displayLagFrames := 2, m_currentDelayBufferIndex := 5,
    m_ldrDelayBufferQueue := [some 3] }

/-- Five projectiles in flight, with 1, 3, 0, 5 and 2 seconds left, in a scene
that also holds a wall. -/
def Weapon.exampleInFlight : Weapon :=
  { m_config := { hitScan := true, renderBullets := false, autoFire := false,
                  firePeriod := 0, bulletSpeed := 1 }
    m_projectileArray :=
      [{ entity := "bullet001", speed := 1, collision := false, gravity := 0, remainingTime := 1 },
       { entity := "bullet002", speed := 1, collision := false, gravity := 0, remainingTime := 3 },
       { entity := "bullet003", speed := 1, collision := false, gravity := 0, remainingTime := 0 },
       { entity := "bullet004", speed := 1, collision := false, gravity := 0, remainingTime := 5 },
       { entity := "bullet005", speed := 1, collision := false, gravity := 0, remainingTime := 2 }]
    m_scene := ["bullet001", "bullet002", "bullet003", "bullet004", "bullet005", "wall"]
    m_lastBulletId := 5 }

/-- A hitscan weapon with no projectile in flight, in a scene of one target and
one wall. -/
def Weapon.exampleHitscan : Weapon :=
  { m_config := { hitScan := true, renderBullets := false, autoFire := false,
                  firePeriod := 0, bulletSpeed := 1 }
    m_projectileArray := []
    m_scene := ["target001", "wall"]
    m_lastBulletId := 0 }

/-- A look ray that meets the target at distance 5 and nothing else. -/
def rayAtTargetOnly (name : String) : Option ℚ :=
  if name = "target001" then some 5 else none

/-- A look ray that meets the target at distance 5 and the wall behind it at
distance 10. -/
def rayAtTargetThenWall (name : String) : Option ℚ :=
  if name = "target001" then some 5 else if name = "wall" then some 10 else none

/-- A look ray that meets the wall at distance 10 and the target behind it at
distance 15. -/
def rayAtWallThenTarget (name : String) : Option ℚ :=
  if name = "wall" then some 10 else if name = "target001" then some 15 else none

/-- Three targets, as `spawnTarget` names them. -/
def App.exampleThreeTargets : App :=
  { App.initial with
    m_targetArray :=
      [{ name := "target001", model := { scaleExponent := 0 } },
       { name := "target002", model := { scaleExponent := 0 } },
       { name := "target003", model := { scaleExponent := 0 } }]
    m_lastUniqueID := 3
    sceneEntities := ["target001", "target002", "target003"] }

/-- One laser whose end time 1 has passed, its entity still in the scene. -/
def App.exampleExpiredLaser : App :=
  { App.initial with
    m_projectileArray :=
      [{ entity := { name := "laser001", model := { scaleExponent := 0 } }, endTime := 1 }]
    m_lastUniqueID := 1
    sceneEntities := ["laser001"] }

/-- A look ray that meets two targets, both at distance 5. -/
def rayAtTwoTargets (name : String) : Option ℚ :=
  if name = "target001" then some 5 else if name = "target002" then some 5 else none

/-! ## Engine containers: basic facts -/

theorem G3D.arrayIndex_eq_some {α : Type} {a : List α} {n : Int} {v : α} :
    G3D.arrayIndex a n = some v ↔ 0 ≤ n ∧ a[n.toNat]? = some v := by
  unfold G3D.arrayIndex
  by_cases h : 0 ≤ n <;> simp [h]

theorem G3D.arrayIndex_eq_none {α : Type} {a : List α} {n : Int} :
    G3D.arrayIndex a n = none ↔ n < 0 ∨ (a.length : Int) ≤ n := by
  unfold G3D.arrayIndex
  by_cases h : 0 ≤ n
  · simp only [h, if_true, List.getElem?_eq_none_iff]
    omega
  · simp only [h, if_false, true_iff]
    omega

theorem G3D.arrayIndex_of_lt {α : Type} {a : List α} {n : Int}
    (h0 : 0 ≤ n) (h1 : n < (a.length : Int)) :
    ∃ v, G3D.arrayIndex a n = some v ∧ a[n.toNat]? = some v := by
  have hlt : n.toNat < a.length := by omega
  refine ⟨a[n.toNat], ?_, ?_⟩
  · simp [G3D.arrayIndex, h0, List.getElem?_eq_getElem hlt]
  · simp [List.getElem?_eq_getElem hlt]

theorem G3D.arrayStore_of_lt {α : Type} {a : List α} {n : Int} (v : α)
    (h0 : 0 ≤ n) (h1 : n < (a.length : Int)) :
    G3D.arrayStore a n v = some (a.set n.toNat v) := by
  simp [G3D.arrayStore, h0, h1]

/-! ## Display-lag compositor: the steps of one frame -/

theorem pushEmptyFramebuffers_eq (n : Nat) (q : List Framebuffer) :
    pushEmptyFramebuffers n q = q ++ List.replicate n none := by
  induction n generalizing q with
  | zero => simp [pushEmptyFramebuffers]
  | succ n ih => simp [pushEmptyFramebuffers, ih, List.replicate_succ]

theorem App.allocateDelayBuffers_eq (app : App) :
    app.allocateDelayBuffers = some { app with
      m_ldrDelayBufferQueue := app.m_ldrDelayBufferQueue ++ List.replicate
        (app.m_displayLagFrames - (app.m_ldrDelayBufferQueue.length : Int) + 1).toNat none } := by
  unfold App.allocateDelayBuffers
  by_cases h : (app.m_ldrDelayBufferQueue.length : Int) ≤ app.m_displayLagFrames
  · have hlen : ((pushEmptyFramebuffers
        (app.m_displayLagFrames - (app.m_ldrDelayBufferQueue.length : Int) + 1).toNat
        app.m_ldrDelayBufferQueue).length : Int) = app.m_displayLagFrames + 1 := by
      rw [pushEmptyFramebuffers_eq]
      simp only [List.length_append, List.length_replicate]
      omega
    simp only [h, if_true, hlen]
    rw [pushEmptyFramebuffers_eq]
  · have h0 : (app.m_displayLagFrames - (app.m_ldrDelayBufferQueue.length : Int) + 1).toNat = 0 := by
      omega
    simp [h, h0]

/-- The queue that `App::onGraphics3D` works on after its allocation step. -/
theorem App.grownQueue_length (app : App) :
    app.m_displayLagFrames + 1 ≤
        ((app.m_ldrDelayBufferQueue ++ List.replicate
          (app.m_displayLagFrames - (app.m_ldrDelayBufferQueue.length : Int) + 1).toNat
          (none : Framebuffer)).length : Int) ∧
      ((app.m_ldrDelayBufferQueue.length : Int) ≤ app.m_displayLagFrames →
        ((app.m_ldrDelayBufferQueue ++ List.replicate
          (app.m_displayLagFrames - (app.m_ldrDelayBufferQueue.length : Int) + 1).toNat
          (none : Framebuffer)).length : Int) = app.m_displayLagFrames + 1) := by
  simp only [List.length_append, List.length_replicate]
  omega

theorem tmod_succ_bounds {i k : Int} (hi : 0 ≤ i) (hik : i ≤ k) :
    Int.tmod (i + 1) (k + 1) = (if i = k then 0 else i + 1) := by
  rw [Int.tmod_eq_emod (by omega) (by omega)]
  split_ifs with h
  · subst h
    exact Int.emod_self
  · exact Int.emod_eq_of_lt (by omega) (by omega)

/-- One lagged frame, written out: the state and trace `App::onGraphics3D`
produces when `lagFrames > 0` and the index is not negative. -/
theorem App.onGraphics3D_lagged (app : App) (frame : Frame)
    (hlag : 0 < app.m_displayLagFrames) (hidx : 0 ≤ app.m_currentDelayBufferIndex) :
    ∃ fb,
      G3D.arrayIndex
        ((app.m_ldrDelayBufferQueue ++ List.replicate
          (app.m_displayLagFrames - (app.m_ldrDelayBufferQueue.length : Int) + 1).toNat
          (none : Framebuffer)).set
            (min app.m_displayLagFrames app.m_currentDelayBufferIndex).toNat (some frame))
        (Int.tmod (min app.m_displayLagFrames app.m_currentDelayBufferIndex + 1)
          (app.m_displayLagFrames + 1)) = some fb ∧
      app.onGraphics3D frame = some
        ({ app with
            m_ldrDelayBufferQueue :=
              (app.m_ldrDelayBufferQueue ++ List.replicate
                (app.m_displayLagFrames - (app.m_ldrDelayBufferQueue.length : Int) + 1).toNat
                (none : Framebuffer)).set
                  (min app.m_displayLagFrames app.m_currentDelayBufferIndex).toNat (some frame)
            m_currentDelayBufferIndex :=
              Int.tmod (min app.m_displayLagFrames app.m_currentDelayBufferIndex + 1)
                (app.m_displayLagFrames + 1) },
         { renderSlot := some (min app.m_displayLagFrames app.m_currentDelayBufferIndex)
           presentSlot := some (Int.tmod
              (min app.m_displayLagFrames app.m_currentDelayBufferIndex + 1)
              (app.m_displayLagFrames + 1))
           presented := fb }) := by
  obtain ⟨hlen, -⟩ := app.grownQueue_length
  have hm0 : 0 ≤ min app.m_displayLagFrames app.m_currentDelayBufferIndex := by omega
  have hmk : min app.m_displayLagFrames app.m_currentDelayBufferIndex ≤ app.m_displayLagFrames := by
    omega
  have hnext := tmod_succ_bounds hm0 hmk
  have hn0 : 0 ≤ Int.tmod (min app.m_displayLagFrames app.m_currentDelayBufferIndex + 1)
      (app.m_displayLagFrames + 1) := by
    rw [hnext]; split_ifs <;> omega
  have hnk : Int.tmod (min app.m_displayLagFrames app.m_currentDelayBufferIndex + 1)
      (app.m_displayLagFrames + 1) ≤ app.m_displayLagFrames := by
    rw [hnext]; split_ifs <;> omega
  obtain ⟨fb, hfb, -⟩ := G3D.arrayIndex_of_lt
    (a := (app.m_ldrDelayBufferQueue ++ List.replicate
          (app.m_displayLagFrames - (app.m_ldrDelayBufferQueue.length : Int) + 1).toNat
          (none : Framebuffer)).set
            (min app.m_displayLagFrames app.m_currentDelayBufferIndex).toNat (some frame))
    hn0 (by rw [List.length_set]; omega)
  refine ⟨fb, hfb, ?_⟩
  unfold App.onGraphics3D
  rw [if_pos hlag, App.allocateDelayBuffers_eq]
  simp only [App.clampDelayBufferIndex, App.renderIntoDelayBuffer]
  rw [G3D.arrayStore_of_lt _ hm0 (by omega)]
  simp only [App.presentDelayedFrame, hfb]

theorem G3D.arrayIndex_set_self {α : Type} {a : List α} {n : Int} (v : α)
    (h0 : 0 ≤ n) (h1 : n < (a.length : Int)) :
    G3D.arrayIndex (a.set n.toNat v) n = some v := by
  have hlt : n.toNat < a.length := by omega
  simp [G3D.arrayIndex, h0, hlt]

theorem G3D.arrayIndex_set_of_ne {α : Type} {a : List α} {n m : Int} (v : α)
    (h0 : 0 ≤ n) (hm : 0 ≤ m) (hne : n ≠ m) :
    G3D.arrayIndex (a.set n.toNat v) m = G3D.arrayIndex a m := by
  have hne2 : n.toNat ≠ m.toNat := by omega
  simp [G3D.arrayIndex, hm, List.getElem?_set_ne hne2]

theorem G3D.arrayIndex_append_left {α : Type} {a b : List α} {n : Int} {v : α}
    (h : G3D.arrayIndex a n = some v) : G3D.arrayIndex (a ++ b) n = some v := by
  rw [G3D.arrayIndex_eq_some] at h ⊢
  refine ⟨h.1, ?_⟩
  have hlt : n.toNat < a.length := by
    by_contra hge
    rw [List.getElem?_eq_none (by omega)] at h
    exact absurd h.2 (by simp)
  rw [List.getElem?_append_left hlt, h.2]

theorem emod_shift_ne (x d n : Int) (hd0 : 0 < d) (hdn : d < n) :
    (x + d) % n ≠ x % n := by
  intro h
  rw [Int.emod_emod_of_dvd (x + d) (dvd_refl n) |>.symm] at h
  have h2 := (Int.emod_emod_of_dvd (x + d) (dvd_refl n))
  have h3 : (x + d - x) % n = 0 := Int.emod_eq_emod_iff_emod_sub_eq_zero.mp (by
    rw [h2] at h; exact h)
  have h4 : x + d - x = d := by omega
  rw [h4, Int.emod_eq_of_lt (by omega) hdn] at h3
  omega

theorem getElem?_snoc_length {α : Type} (l : List α) (x : α) (n : Nat) (h : l.length = n) :
    (l ++ [x])[n]? = some x := by
  subst h
  simp

theorem App.runFrames_nil (app : App) : app.runFrames [] = some (app, []) := rfl

theorem App.runFrames_cons (app : App) (f : Frame) (fs : List Frame) :
    app.runFrames (f :: fs) =
      match app.onGraphics3D f with
      | none => none
      | some (a, tr) =>
        match App.runFrames a fs with
        | none => none
        | some (a', trs) => some (a', tr :: trs) := rfl

theorem App.runFrames_snoc (app : App) (fs : List Frame) (f : Frame) :
    app.runFrames (fs ++ [f]) =
      match app.runFrames fs with
      | none => none
      | some (a, trs) =>
        match a.onGraphics3D f with
        | none => none
        | some (a', tr) => some (a', trs ++ [tr]) := by
  induction fs generalizing app with
  | nil =>
    rw [List.nil_append, App.runFrames_cons, App.runFrames_nil]
    simp only []
    cases app.onGraphics3D f with
    | none => rfl
    | some p => rfl
  | cons g gs ih =>
    rw [List.cons_append, App.runFrames_cons, App.runFrames_cons]
    cases hg : app.onGraphics3D g with
    | none => rfl
    | some p =>
      obtain ⟨a, tr⟩ := p
      simp only []
      rw [ih a]
      cases hgs : a.runFrames gs with
      | none => rfl
      | some q =>
        obtain ⟨b, trs⟩ := q
        simp only []
        cases b.onGraphics3D f with
        | none => rfl
        | some r => rfl

/-- Closed form of a run of lagged frames with `lagFrames = k` throughout: tick
`j` renders into slot `(i₀ + j) mod (k + 1)`, presents slot
`(i₀ + j + 1) mod (k + 1)`, and the queue keeps the last `k` frames. -/
theorem App.runFrames_lagged (app : App) (k : Nat) (hk : 0 < k)
    (hlag : app.m_displayLagFrames = (k : Int))
    (hidx0 : 0 ≤ app.m_currentDelayBufferIndex)
    (hidxk : app.m_currentDelayBufferIndex ≤ (k : Int)) (frames : List Frame) :
    ∃ s trs, app.runFrames frames = some (s, trs) ∧ trs.length = frames.length ∧
      s.m_displayLagFrames = (k : Int) ∧
      s.m_currentDelayBufferIndex =
        (app.m_currentDelayBufferIndex + (frames.length : Int)) % ((k : Int) + 1) ∧
      (∀ j : Nat, j < frames.length → frames.length ≤ j + k →
        G3D.arrayIndex s.m_ldrDelayBufferQueue
          ((app.m_currentDelayBufferIndex + (j : Int)) % ((k : Int) + 1)) = some (frames[j]?)) ∧
      (∀ j : Nat, j < frames.length → ∃ tr, trs[j]? = some tr ∧
        tr.renderSlot = some ((app.m_currentDelayBufferIndex + (j : Int)) % ((k : Int) + 1)) ∧
        tr.presentSlot =
          some ((app.m_currentDelayBufferIndex + (j : Int) + 1) % ((k : Int) + 1)) ∧
        (k ≤ j → tr.presented = frames[j - k]?)) := by
  induction frames using List.reverseRecOn with
  | nil =>
    refine ⟨app, [], rfl, rfl, hlag, ?_, ?_, ?_⟩
    · simp only [List.length_nil, Nat.cast_zero, add_zero]
      exact (Int.emod_eq_of_lt hidx0 (by omega)).symm
    · intro j hj; simp at hj
    · intro j hj; simp at hj
  | append_singleton fs f ih =>
    obtain ⟨s, trs, hrun, hlen, hslag, hsidx, hq, htr⟩ := ih
    have hn : (0 : Int) < (k : Int) + 1 := by omega
    have hs0 : 0 ≤ s.m_currentDelayBufferIndex := by
      rw [hsidx]; exact Int.emod_nonneg _ (by omega)
    have hsk : s.m_currentDelayBufferIndex < (k : Int) + 1 := by
      rw [hsidx]; exact Int.emod_lt_of_pos _ hn
    have hmin : min (k : Int) s.m_currentDelayBufferIndex = s.m_currentDelayBufferIndex := by
      omega
    obtain ⟨fb, hfb, hstep⟩ := s.onGraphics3D_lagged f (by omega) hs0
    rw [hslag, hmin] at hfb hstep
    have hnext : Int.tmod (s.m_currentDelayBufferIndex + 1) ((k : Int) + 1) =
        (app.m_currentDelayBufferIndex + ((fs.length : Int) + 1)) % ((k : Int) + 1) := by
      rw [Int.tmod_eq_emod (by omega) (by omega), hsidx, Int.emod_add_emod, add_assoc]
    rw [hnext] at hfb hstep
    have hQlen : (k : Int) + 1 ≤ ((s.m_ldrDelayBufferQueue ++ List.replicate
        ((k : Int) - (s.m_ldrDelayBufferQueue.length : Int) + 1).toNat
        (none : Framebuffer)).length : Int) := by
      have := s.grownQueue_length.1
      rw [hslag] at this
      exact this
    -- slots of earlier ticks survive the write of this tick
    have hkeep : ∀ j : Nat, j < fs.length → fs.length ≤ j + k →
        G3D.arrayIndex ((s.m_ldrDelayBufferQueue ++ List.replicate
          ((k : Int) - (s.m_ldrDelayBufferQueue.length : Int) + 1).toNat
          (none : Framebuffer)).set s.m_currentDelayBufferIndex.toNat (some f))
          ((app.m_currentDelayBufferIndex + (j : Int)) % ((k : Int) + 1)) = some (fs[j]?) := by
      intro j hj hjk
      have hne : s.m_currentDelayBufferIndex ≠
          (app.m_currentDelayBufferIndex + (j : Int)) % ((k : Int) + 1) := by
        rw [hsidx]
        have h := emod_shift_ne (app.m_currentDelayBufferIndex + (j : Int))
          ((fs.length : Int) - (j : Int)) ((k : Int) + 1) (by omega) (by omega)
        have e : app.m_currentDelayBufferIndex + (j : Int) + ((fs.length : Int) - (j : Int)) =
            app.m_currentDelayBufferIndex + (fs.length : Int) := by omega
        rw [e] at h
        exact h
      rw [G3D.arrayIndex_set_of_ne _ hs0 (Int.emod_nonneg _ (by omega)) hne]
      exact G3D.arrayIndex_append_left (hq j hj hjk)
    refine ⟨{ s with
        m_ldrDelayBufferQueue :=
          (s.m_ldrDelayBufferQueue ++ List.replicate
            ((k : Int) - (s.m_ldrDelayBufferQueue.length : Int) + 1).toNat
            (none : Framebuffer)).set s.m_currentDelayBufferIndex.toNat (some f)
        m_currentDelayBufferIndex :=
          (app.m_currentDelayBufferIndex + ((fs.length : Int) + 1)) % ((k : Int) + 1) },
      trs ++ [{ renderSlot := some s.m_currentDelayBufferIndex
                presentSlot := some
                  ((app.m_currentDelayBufferIndex + ((fs.length : Int) + 1)) % ((k : Int) + 1))
                presented := fb }], ?_, ?_, hslag, ?_, ?_, ?_⟩
    · rw [App.runFrames_snoc, hrun]
      simp only [hstep]
      simp [hslag]
    · simp [hlen]
    · simp only [List.length_append, List.length_singleton, Nat.cast_add, Nat.cast_one]
    · intro j hj hjk
      simp only [List.length_append, List.length_singleton] at hj hjk
      by_cases hjt : j = fs.length
      · subst hjt
        rw [← hsidx, G3D.arrayIndex_set_self _ hs0 (by omega)]
        simp
      · have hj' : j < fs.length := by omega
        rw [hkeep j hj' (by omega), List.getElem?_append_left hj']
    · intro j hj
      simp only [List.length_append, List.length_singleton] at hj
      by_cases hjt : j = fs.length
      · subst hjt
        refine ⟨_, getElem?_snoc_length trs _ _ hlen, ?_, ?_, ?_⟩
        · simp only [hsidx]
        · simp only [add_assoc]
        · intro hkj
          simp only []
          have hjk : fs.length - k < fs.length := by omega
          have e : (app.m_currentDelayBufferIndex + ((fs.length : Int) + 1)) % ((k : Int) + 1) =
              (app.m_currentDelayBufferIndex + ((fs.length - k : Nat) : Int)) % ((k : Int) + 1) := by
            have e1 : app.m_currentDelayBufferIndex + ((fs.length : Int) + 1) =
                app.m_currentDelayBufferIndex + ((fs.length - k : Nat) : Int) + ((k : Int) + 1) := by
              omega
            rw [e1, Int.add_emod_self]
          rw [e, hkeep (fs.length - k) hjk (by omega)] at hfb
          rw [List.getElem?_append_left hjk]
          exact (Option.some.inj hfb).symm
      · have hj' : j < fs.length := by omega
        obtain ⟨tr, h1, h2, h3, h4⟩ := htr j hj'
        refine ⟨tr, ?_, h2, h3, ?_⟩
        · rw [List.getElem?_append_left (by omega), h1]
        · intro hkj
          rw [h4 hkj, List.getElem?_append_left (by omega)]

/-! ## Display-lag compositor: the claims -/

/-- C1. Display-lag round trip: with `lagFrames = k > 0` held constant and the
current index starting in `[0, k]`, any run of consecutive frames completes,
and at every tick `T` with at least `k` earlier ticks the slot presented is the
slot rendered into at tick `T - k`, it still holds the frame rendered at tick
`T - k`, and no tick after `T - k` up to `T` rendered into that slot. -/
theorem App.displayLag_roundTrip (app : App) (k : Nat) (frames : List Frame)
    (hk : 0 < k) (hlag : app.m_displayLagFrames = (k : Int))
    (hidx0 : 0 ≤ app.m_currentDelayBufferIndex)
    (hidxk : app.m_currentDelayBufferIndex ≤ (k : Int)) :
    ∃ app' traces, app.runFrames frames = some (app', traces) ∧
      traces.length = frames.length ∧
      ∀ T : Nat, T < frames.length → k ≤ T →
        ∃ trT trR slot f, traces[T]? = some trT ∧ traces[T - k]? = some trR ∧
          frames[T - k]? = some f ∧
          trR.renderSlot = some slot ∧ trT.presentSlot = some slot ∧
          trT.presented = some f ∧
          ∀ j trJ, T - k < j → j ≤ T → traces[j]? = some trJ →
            trJ.renderSlot ≠ some slot := by
  obtain ⟨s, trs, hrun, hlen, -, -, -, htr⟩ :=
    app.runFrames_lagged k hk hlag hidx0 hidxk frames
  refine ⟨s, trs, hrun, hlen, ?_⟩
  intro T hT hkT
  obtain ⟨trT, hT1, -, hT3, hT4⟩ := htr T hT
  obtain ⟨trR, hR1, hR2, -, -⟩ := htr (T - k) (by omega)
  have hTk : T - k < frames.length := by omega
  refine ⟨trT, trR, _, frames[T - k], hT1, hR1, List.getElem?_eq_getElem hTk, hR2, ?_, ?_, ?_⟩
  · rw [hT3]
    have e : app.m_currentDelayBufferIndex + (T : Int) + 1 =
        app.m_currentDelayBufferIndex + ((T - k : Nat) : Int) + ((k : Int) + 1) := by omega
    rw [e, Int.add_emod_self]
  · rw [hT4 hkT, List.getElem?_eq_getElem hTk]
  · intro j trJ hj1 hj2 hJ
    obtain ⟨tr, hJ1, hJ2, -, -⟩ := htr j (by omega)
    rw [hJ] at hJ1
    cases hJ1
    rw [hJ2]
    intro h
    have h' := Option.some.inj h
    have hne := emod_shift_ne (app.m_currentDelayBufferIndex + ((T - k : Nat) : Int))
      ((j : Int) - ((T - k : Nat) : Int)) ((k : Int) + 1) (by omega) (by omega)
    have e : app.m_currentDelayBufferIndex + ((T - k : Nat) : Int) +
        ((j : Int) - ((T - k : Nat) : Int)) = app.m_currentDelayBufferIndex + (j : Int) := by
      omega
    rw [e] at hne
    exact hne h'

/-- Witness of C1: lag 2 from the initial state, six frames. -/
theorem App.displayLag_roundTrip_witness :
    0 < 2 ∧ (App.initial.setDisplayLatencyFrames 2).m_displayLagFrames = ((2 : Nat) : Int) ∧
    ∃ app' traces,
      (App.initial.setDisplayLatencyFrames 2).runFrames [10, 11, 12, 13, 14, 15] =
        some (app', traces) ∧
      traces.length = [10, 11, 12, 13, 14, 15].length ∧
      ∀ T : Nat, T < [10, 11, 12, 13, 14, 15].length → 2 ≤ T →
        ∃ trT trR slot f, traces[T]? = some trT ∧ traces[T - 2]? = some trR ∧
          [10, 11, 12, 13, 14, 15][T - 2]? = some f ∧
          trR.renderSlot = some slot ∧ trT.presentSlot = some slot ∧
          trT.presented = some f ∧
          ∀ j trJ, T - 2 < j → j ≤ T → traces[j]? = some trJ →
            trJ.renderSlot ≠ some slot :=
  ⟨by decide, rfl,
    App.displayLag_roundTrip (App.initial.setDisplayLatencyFrames 2) 2 [10, 11, 12, 13, 14, 15]
      (by decide) rfl (by decide) (by decide)⟩

/-- C2 as stated fails: the initial state, and the state after
`setDisplayLatencyFrames(2)` followed by a frame and `setDisplayLatencyFrames(5)`,
are reachable and have a queue shorter than `lagFrames + 1`. -/
theorem App.bufferSize_invariant_counterexample :
    App.initial.compositorRun [] = some App.initial ∧
    ¬ (App.initial.m_displayLagFrames + 1 ≤ (App.initial.m_ldrDelayBufferQueue.length : Int)) ∧
    (App.initial.compositorRun
        [.setDisplayLatencyFrames 2, .onGraphics3D 7, .setDisplayLatencyFrames 5]).map
      (fun s => (s.m_displayLagFrames, s.m_ldrDelayBufferQueue.length)) = some (5, 3) := by
  decide

theorem App.compositorRun_append (app : App) (cs ds : List CompositorCall) :
    app.compositorRun (cs ++ ds) =
      match app.compositorRun cs with
      | none => none
      | some a => a.compositorRun ds := by
  induction cs generalizing app with
  | nil => rfl
  | cons c cs ih =>
    show (match app.compositorStep c with
      | none => none
      | some a => App.compositorRun a (cs ++ ds)) = _
    show _ = (match (match app.compositorStep c with
      | none => none
      | some a => App.compositorRun a cs) with
      | none => none
      | some a => a.compositorRun ds)
    cases app.compositorStep c with
    | none => rfl
    | some a => exact ih a

/-- Every compositor call sequence from a state with a non-negative index
completes and leaves a non-negative index. -/
theorem App.compositorRun_total (app : App) (cs : List CompositorCall)
    (hidx : 0 ≤ app.m_currentDelayBufferIndex) :
    ∃ s, app.compositorRun cs = some s ∧ 0 ≤ s.m_currentDelayBufferIndex := by
  induction cs generalizing app with
  | nil => exact ⟨app, rfl, hidx⟩
  | cons c cs ih =>
    cases c with
    | setDisplayLatencyFrames f =>
      exact ih (app.setDisplayLatencyFrames f) hidx
    | onGraphics3D frame =>
      by_cases hlag : 0 < app.m_displayLagFrames
      · obtain ⟨fb, -, hstep⟩ := app.onGraphics3D_lagged frame hlag hidx
        have hnext := tmod_succ_bounds (i := min app.m_displayLagFrames app.m_currentDelayBufferIndex)
          (k := app.m_displayLagFrames) (by omega) (by omega)
        have h := ih { app with
            m_ldrDelayBufferQueue :=
              (app.m_ldrDelayBufferQueue ++ List.replicate
                (app.m_displayLagFrames - (app.m_ldrDelayBufferQueue.length : Int) + 1).toNat
                (none : Framebuffer)).set
                  (min app.m_displayLagFrames app.m_currentDelayBufferIndex).toNat (some frame)
            m_currentDelayBufferIndex :=
              Int.tmod (min app.m_displayLagFrames app.m_currentDelayBufferIndex + 1)
                (app.m_displayLagFrames + 1) } (by
          show 0 ≤ Int.tmod (min app.m_displayLagFrames app.m_currentDelayBufferIndex + 1)
                (app.m_displayLagFrames + 1)
          rw [hnext]; split_ifs <;> omega)
        simpa [App.compositorRun, App.compositorStep, hstep] using h
      · have h := ih app hidx
        simpa [App.compositorRun, App.compositorStep, App.onGraphics3D, hlag] using h

/-- C2 (amended). From the initial state every sequence of
`setDisplayLatencyFrames` and `onGraphics3D` calls completes, and in the state
right after an `onGraphics3D` frame either the lag is off (`lagFrames ≤ 0`) or
the queue has at least `lagFrames + 1` slots; the frame leaves `lagFrames` as
it was and never shortens the queue. -/
theorem App.bufferSize_after_frame (cs : List CompositorCall) (frame : Frame) :
    ∃ s0 s, App.initial.compositorRun cs = some s0 ∧
      App.initial.compositorRun (cs ++ [CompositorCall.onGraphics3D frame]) = some s ∧
      (s.m_displayLagFrames ≤ 0 ∨
        s.m_displayLagFrames + 1 ≤ (s.m_ldrDelayBufferQueue.length : Int)) ∧
      s.m_displayLagFrames = s0.m_displayLagFrames ∧
      s0.m_ldrDelayBufferQueue.length ≤ s.m_ldrDelayBufferQueue.length := by
  obtain ⟨s0, hrun, hidx⟩ := App.initial.compositorRun_total cs (le_refl 0)
  have hone : ∀ a : App, a.compositorRun [CompositorCall.onGraphics3D frame] =
      (a.onGraphics3D frame).map Prod.fst := by
    intro a
    show (match (a.onGraphics3D frame).map Prod.fst with
      | none => none
      | some b => App.compositorRun b []) = _
    cases (a.onGraphics3D frame).map Prod.fst with
    | none => rfl
    | some b => rfl
  refine ⟨s0, ?_⟩
  rw [App.compositorRun_append, hrun]
  show ∃ s, some s0 = some s0 ∧
    s0.compositorRun [CompositorCall.onGraphics3D frame] = some s ∧ _
  rw [hone]
  by_cases hlag : 0 < s0.m_displayLagFrames
  · obtain ⟨fb, -, hstep⟩ := s0.onGraphics3D_lagged frame hlag hidx
    rw [hstep]
    refine ⟨_, rfl, rfl, Or.inr ?_, rfl, ?_⟩
    · have h := s0.grownQueue_length.1
      simpa using h
    · simp
  · have hdirect : s0.onGraphics3D frame = some
        (s0, { renderSlot := none, presentSlot := none, presented := some frame }) := by
      simp only [App.onGraphics3D, hlag, if_false]
    rw [hdirect]
    exact ⟨s0, rfl, rfl, Or.inl (by omega), rfl, le_refl _⟩

/-- C9. Delay-buffer index safety: from any state with a non-negative index
and `lagFrames > 0`, whatever the queue length, the allocation step succeeds
(its `debugAssert` holds) and leaves at least `lagFrames + 1` slots, exactly
`lagFrames + 1` when the queue was grown; the frame is rendered into slot
`min(lagFrames, index)`, which is inside the queue; the slot presented is
inside the queue; and the index left behind is in `[0, lagFrames]`. -/
theorem App.onGraphics3D_index_safety (app : App) (frame : Frame)
    (hidx : 0 ≤ app.m_currentDelayBufferIndex) (hlag : 0 < app.m_displayLagFrames) :
    ∃ a1 app' tr,
      app.allocateDelayBuffers = some a1 ∧
      app.m_displayLagFrames + 1 ≤ (a1.m_ldrDelayBufferQueue.length : Int) ∧
      ((app.m_ldrDelayBufferQueue.length : Int) ≤ app.m_displayLagFrames →
        (a1.m_ldrDelayBufferQueue.length : Int) = app.m_displayLagFrames + 1) ∧
      a1.clampDelayBufferIndex.m_currentDelayBufferIndex =
        min app.m_displayLagFrames app.m_currentDelayBufferIndex ∧
      app.onGraphics3D frame = some (app', tr) ∧
      tr.renderSlot = some (min app.m_displayLagFrames app.m_currentDelayBufferIndex) ∧
      0 ≤ min app.m_displayLagFrames app.m_currentDelayBufferIndex ∧
      min app.m_displayLagFrames app.m_currentDelayBufferIndex <
        (a1.m_ldrDelayBufferQueue.length : Int) ∧
      tr.presentSlot = some app'.m_currentDelayBufferIndex ∧
      app'.m_ldrDelayBufferQueue.length = a1.m_ldrDelayBufferQueue.length ∧
      0 ≤ app'.m_currentDelayBufferIndex ∧
      app'.m_currentDelayBufferIndex < (app'.m_ldrDelayBufferQueue.length : Int) ∧
      app'.m_currentDelayBufferIndex ≤ app.m_displayLagFrames ∧
      app'.m_displayLagFrames = app.m_displayLagFrames := by
  obtain ⟨fb, -, hstep⟩ := app.onGraphics3D_lagged frame hlag hidx
  obtain ⟨hlen, hexact⟩ := app.grownQueue_length
  have hnext := tmod_succ_bounds (i := min app.m_displayLagFrames app.m_currentDelayBufferIndex)
    (k := app.m_displayLagFrames) (by omega) (by omega)
  have hn0 : 0 ≤ Int.tmod (min app.m_displayLagFrames app.m_currentDelayBufferIndex + 1)
      (app.m_displayLagFrames + 1) := by
    rw [hnext]; split_ifs <;> omega
  have hnk : Int.tmod (min app.m_displayLagFrames app.m_currentDelayBufferIndex + 1)
      (app.m_displayLagFrames + 1) ≤ app.m_displayLagFrames := by
    rw [hnext]; split_ifs <;> omega
  have hm0 : 0 ≤ min app.m_displayLagFrames app.m_currentDelayBufferIndex := by omega
  have hmlt : min app.m_displayLagFrames app.m_currentDelayBufferIndex <
      ((app.m_ldrDelayBufferQueue ++ List.replicate
        (app.m_displayLagFrames - (app.m_ldrDelayBufferQueue.length : Int) + 1).toNat
        (none : Framebuffer)).length : Int) := by omega
  refine ⟨_, _, _, app.allocateDelayBuffers_eq, hlen, hexact, rfl, hstep, rfl, hm0,
    hmlt, rfl, ?_, hn0, ?_, hnk, rfl⟩
  · simp only [List.length_set]
  · simp only [List.length_set]
    omega

/-- Witness of C9: the lag was lowered to 2 while the index was 5 and the
queue had a single slot. -/
theorem App.onGraphics3D_index_safety_witness :
    0 ≤ App.exampleLoweredLag.m_currentDelayBufferIndex ∧
    0 < App.exampleLoweredLag.m_displayLagFrames ∧
    ∃ a1 app' tr,
      App.exampleLoweredLag.allocateDelayBuffers = some a1 ∧
      App.exampleLoweredLag.m_displayLagFrames + 1 ≤ (a1.m_ldrDelayBufferQueue.length : Int) ∧
      ((App.exampleLoweredLag.m_ldrDelayBufferQueue.length : Int) ≤
          App.exampleLoweredLag.m_displayLagFrames →
        (a1.m_ldrDelayBufferQueue.length : Int) = App.exampleLoweredLag.m_displayLagFrames + 1) ∧
      a1.clampDelayBufferIndex.m_currentDelayBufferIndex =
        min App.exampleLoweredLag.m_displayLagFrames
          App.exampleLoweredLag.m_currentDelayBufferIndex ∧
      App.exampleLoweredLag.onGraphics3D 7 = some (app', tr) ∧
      tr.renderSlot = some (min App.exampleLoweredLag.m_displayLagFrames
        App.exampleLoweredLag.m_currentDelayBufferIndex) ∧
      0 ≤ min App.exampleLoweredLag.m_displayLagFrames
        App.exampleLoweredLag.m_currentDelayBufferIndex ∧
      min App.exampleLoweredLag.m_displayLagFrames
          App.exampleLoweredLag.m_currentDelayBufferIndex <
        (a1.m_ldrDelayBufferQueue.length : Int) ∧
      tr.presentSlot = some app'.m_currentDelayBufferIndex ∧
      app'.m_ldrDelayBufferQueue.length = a1.m_ldrDelayBufferQueue.length ∧
      0 ≤ app'.m_currentDelayBufferIndex ∧
      app'.m_currentDelayBufferIndex < (app'.m_ldrDelayBufferQueue.length : Int) ∧
      app'.m_currentDelayBufferIndex ≤ App.exampleLoweredLag.m_displayLagFrames ∧
      app'.m_displayLagFrames = App.exampleLoweredLag.m_displayLagFrames :=
  ⟨by decide, by decide,
    App.onGraphics3D_index_safety App.exampleLoweredLag 7 (by decide) (by decide)⟩

/-- C10 as stated fails: `setDisplayLatencyFrames(-1)` stores `-1`. -/
theorem App.setDisplayLatencyFrames_counterexample :
    (App.initial.setDisplayLatencyFrames (-1)).m_displayLagFrames = -1 ∧
    ¬ (0 ≤ (App.initial.setDisplayLatencyFrames (-1)).m_displayLagFrames) := by
  decide

/-- C10 (amended). `setDisplayLatencyFrames(f)` stores `f` as it is, so the
stored count is non-negative exactly when `f` is; and with a stored count that
is not positive `onGraphics3D` leaves the queue and the index alone and the
frame goes straight to the screen. -/
theorem App.setDisplayLatencyFrames_stores (app : App) (f : Int) :
    (app.setDisplayLatencyFrames f).m_displayLagFrames = f ∧
    (0 ≤ (app.setDisplayLatencyFrames f).m_displayLagFrames ↔ 0 ≤ f) ∧
    (f ≤ 0 → ∀ frame : Frame,
      (app.setDisplayLatencyFrames f).onGraphics3D frame =
        some (app.setDisplayLatencyFrames f,
          { renderSlot := none, presentSlot := none, presented := some frame })) := by
  refine ⟨rfl, Iff.rfl, ?_⟩
  intro hf frame
  have h : ¬ (0 < (app.setDisplayLatencyFrames f).m_displayLagFrames) := by
    show ¬ (0 < f)
    omega
  simp only [App.onGraphics3D, h, if_false]

/-! ## Swap-remove -/

/-- What `fastRemove` leaves of the part of the array from the removed slot
on: the last element moved to the front, the rest in order. -/
theorem G3D.fastRemove_append_cons {α : Type} (done : List α) (x : α) (rest : List α) :
    G3D.fastRemove (done ++ x :: rest) (done.length : Int) =
      some (done ++ G3D.lastToFront rest) := by
  have hcond : (0 : Int) ≤ (done.length : Int) ∧
      (done.length : Int) < ((done ++ x :: rest).length : Int) := by
    simp only [List.length_append, List.length_cons]
    omega
  unfold G3D.fastRemove
  rw [if_pos hcond]
  rcases List.eq_nil_or_concat rest with rfl | ⟨r, l, rfl⟩
  · have h1 : (done ++ [x]).getLast? = some x := List.getLast?_concat done
    rw [h1]
    simp [G3D.lastToFront]
  · rw [List.concat_eq_append]
    have h1 : (done ++ x :: (r ++ [l])).getLast? = some l := by
      rw [← List.cons_append, ← List.append_assoc]
      exact List.getLast?_concat _
    have h2 : (r ++ [l]).getLast? = some l := List.getLast?_concat r
    simp only [G3D.lastToFront, h1, h2, Int.toNat_ofNat, List.dropLast_concat]
    have h3 : (done ++ x :: (r ++ [l])).set done.length l = done ++ l :: (r ++ [l]) := by
      simp
    rw [h3, ← List.cons_append, ← List.append_assoc, List.dropLast_concat]

theorem G3D.swapLast_perm {α : Type} (rest : List α) :
    (G3D.lastToFront rest).Perm rest := by
  rcases List.eq_nil_or_concat rest with rfl | ⟨r, l, rfl⟩
  · simp [G3D.lastToFront]
  · simp only [G3D.lastToFront, List.concat_eq_append, List.getLast?_concat,
      List.dropLast_concat]
    exact (List.perm_append_singleton l r).symm

theorem G3D.arrayIndex_append_cons {α : Type} (done : List α) (x : α) (rest : List α) :
    G3D.arrayIndex (done ++ x :: rest) (done.length : Int) = some x := by
  simp [G3D.arrayIndex, List.getElem?_append_right (le_refl done.length)]

theorem G3D.arrayStore_append_cons {α : Type} (done : List α) (x y : α) (rest : List α) :
    G3D.arrayStore (done ++ x :: rest) (done.length : Int) y = some (done ++ y :: rest) := by
  have hcond : (0 : Int) ≤ (done.length : Int) ∧
      (done.length : Int) < ((done ++ x :: rest).length : Int) := by
    simp only [List.length_append, List.length_cons]
    omega
  unfold G3D.arrayStore
  rw [if_pos hcond]
  simp

/-! ## `Weapon::onSimulation` -/

/-- The loop of `Weapon::onSimulation`, entered at index `done.length` with the
projectiles `done` already visited and `todo` still ahead: it returns, and the
array it leaves is `done` together with the projectiles of `todo`, each
simulated once, that have lifetime left. -/
theorem Weapon.onSimulationLoop_spec (rdt : ℚ) (fuel : Nat) :
    ∀ (todo done : List Projectile) (w : Weapon),
      w.m_projectileArray = done ++ todo → todo.length < fuel →
      ∃ w', Weapon.onSimulationLoop rdt fuel w (done.length : Int) = some w' ∧
        w'.m_config = w.m_config ∧ w'.m_lastBulletId = w.m_lastBulletId ∧
        w'.m_projectileArray.Perm
          (done ++ (todo.map (fun p => p.onSimulation rdt)).filter
            (fun q => decide (0 < q.remainingTime))) := by
  induction fuel with
  | zero => intro todo done w _ h; omega
  | succ fuel ih =>
    intro todo done w harr hfuel
    cases todo with
    | nil =>
      refine ⟨w, ?_, rfl, rfl, ?_⟩
      · have hnot : ¬ ((done.length : Int) < (w.m_projectileArray.length : Int)) := by
          rw [harr]; simp
        simp only [Weapon.onSimulationLoop, hnot, if_false]
      · rw [harr]; simp
    | cons x rest =>
      have hlt : (done.length : Int) < (w.m_projectileArray.length : Int) := by
        rw [harr]
        simp only [List.length_append, List.length_cons]
        omega
      have hidx := G3D.arrayIndex_append_cons done x rest
      have hst := G3D.arrayStore_append_cons done x (x.onSimulation rdt) rest
      rw [← harr] at hidx hst
      by_cases hexp : (x.onSimulation rdt).remainingTime ≤ 0
      · have hrm := G3D.fastRemove_append_cons done (x.onSimulation rdt) rest
        obtain ⟨w', hrun, hc, hb, hperm⟩ := ih
          (G3D.lastToFront rest) done
          { w with
            m_scene := Scene.removeEntity w.m_scene (x.onSimulation rdt).entity
            m_projectileArray := done ++ G3D.lastToFront rest } rfl
          (by rw [(G3D.swapLast_perm rest).length_eq]; simp at hfuel; omega)
        refine ⟨w', ?_, hc, hb, ?_⟩
        · simp only [Weapon.onSimulationLoop, hlt, if_true, hidx, hst, hexp, hrm]
          rw [show ((done.length : Int) - 1 + 1) = (done.length : Int) by omega]
          exact hrun
        · refine hperm.trans (List.Perm.append_left done ?_)
          have hx : ¬ (0 < (x.onSimulation rdt).remainingTime) := by
            exact not_lt.mpr hexp
          simp only [List.map_cons, List.filter_cons, hx, decide_False, Bool.false_eq_true,
            if_false]
          exact ((G3D.swapLast_perm rest).map _).filter _
      · obtain ⟨w', hrun, hc, hb, hperm⟩ := ih rest (done ++ [x.onSimulation rdt])
          { w with m_projectileArray := done ++ x.onSimulation rdt :: rest }
          (by simp) (by simp at hfuel; omega)
        refine ⟨w', ?_, hc, hb, ?_⟩
        · simp only [Weapon.onSimulationLoop, hlt, if_true, hidx, hst, hexp, if_false]
          have e : ((done ++ [x.onSimulation rdt]).length : Int) = (done.length : Int) + 1 := by
            simp
          rw [e] at hrun
          exact hrun
        · have hx : 0 < (x.onSimulation rdt).remainingTime := not_le.mp hexp
          simp only [List.map_cons, List.filter_cons, hx, decide_True, if_true]
          simpa using hperm

theorem Projectile.onSimulation_injective (dt : ℚ) :
    Function.Injective (fun p : Projectile => p.onSimulation dt) := by
  intro p q h
  cases p
  cases q
  simp only [Projectile.onSimulation, Projectile.mk.injEq] at h
  obtain ⟨h1, h2, h3, h4, h5⟩ := h
  simp only [Projectile.mk.injEq]
  exact ⟨h1, h2, h3, h4, by linarith⟩

/-- C3. Projectile tick of `Weapon::onSimulation(dt)` with `dt ≥ 0`: the call
returns; the array it leaves is, as a multiset, the projectiles simulated once
each that still have lifetime left; so a projectile whose remaining time was
`≤ 0` is gone, and one whose remaining time was `> dt` is there with its
remaining time decreased by exactly `dt`, as often as it was in the array
before (once for an array of distinct projectiles). -/
theorem Weapon.onSimulation_projectiles (w : Weapon) (dt : ℚ) (hdt : 0 ≤ dt) :
    ∃ w', w.onSimulation dt = some w' ∧
      w'.m_projectileArray.Perm
        ((w.m_projectileArray.map (fun p => p.onSimulation dt)).filter
          (fun q => decide (0 < q.remainingTime))) ∧
      (∀ p ∈ w.m_projectileArray, p.remainingTime ≤ 0 →
        p ∉ w'.m_projectileArray ∧ p.onSimulation dt ∉ w'.m_projectileArray) ∧
      (∀ p ∈ w.m_projectileArray, dt < p.remainingTime →
        (p.onSimulation dt).remainingTime = p.remainingTime - dt ∧
        (p.onSimulation dt).entity = p.entity ∧
        p.onSimulation dt ∈ w'.m_projectileArray ∧
        w'.m_projectileArray.count (p.onSimulation dt) = w.m_projectileArray.count p ∧
        (w.m_projectileArray.Nodup → w'.m_projectileArray.count (p.onSimulation dt) = 1)) := by
  obtain ⟨w', hrun, -, -, hperm⟩ :=
    Weapon.onSimulationLoop_spec dt (w.m_projectileArray.length + 1) w.m_projectileArray [] w
      rfl (Nat.lt_succ_self _)
  have hperm' : w'.m_projectileArray.Perm
      ((w.m_projectileArray.map (fun p => p.onSimulation dt)).filter
        (fun q => decide (0 < q.remainingTime))) := by
    simpa using hperm
  have halive : ∀ q ∈ w'.m_projectileArray, 0 < q.remainingTime := by
    intro q hq
    have := (hperm'.mem_iff).mp hq
    simpa using (List.mem_filter.mp this).2
  refine ⟨w', hrun, hperm', ?_, ?_⟩
  · intro p _ hp
    constructor
    · intro hmem
      have := halive p hmem
      linarith
    · intro hmem
      have := halive _ hmem
      simp only [Projectile.onSimulation] at this
      linarith
  · intro p hp hlive
    have hpos : 0 < (p.onSimulation dt).remainingTime := by
      simp only [Projectile.onSimulation]
      linarith
    have hcount : w'.m_projectileArray.count (p.onSimulation dt) =
        w.m_projectileArray.count p := by
      rw [hperm'.count_eq, List.count_filter (by simpa using hpos)]
      exact List.count_map_of_injective _ _ (Projectile.onSimulation_injective dt) p
    refine ⟨rfl, rfl, ?_, hcount, ?_⟩
    · have h0 : 0 < w.m_projectileArray.count p := List.count_pos_iff.mpr hp
      exact List.count_pos_iff.mp (by omega)
    · intro hnd
      rw [hcount]
      exact List.count_eq_one_of_mem hnd hp

/-- Witness of C3: five projectiles, a tick of 2 seconds. -/
theorem Weapon.onSimulation_projectiles_witness :
    (0 : ℚ) ≤ 2 ∧
    ∃ w', Weapon.exampleInFlight.onSimulation 2 = some w' ∧
      w'.m_projectileArray.Perm
        ((Weapon.exampleInFlight.m_projectileArray.map (fun p => p.onSimulation 2)).filter
          (fun q => decide (0 < q.remainingTime))) ∧
      (∀ p ∈ Weapon.exampleInFlight.m_projectileArray, p.remainingTime ≤ 0 →
        p ∉ w'.m_projectileArray ∧ p.onSimulation 2 ∉ w'.m_projectileArray) ∧
      (∀ p ∈ Weapon.exampleInFlight.m_projectileArray, 2 < p.remainingTime →
        (p.onSimulation 2).remainingTime = p.remainingTime - 2 ∧
        (p.onSimulation 2).entity = p.entity ∧
        p.onSimulation 2 ∈ w'.m_projectileArray ∧
        w'.m_projectileArray.count (p.onSimulation 2) =
          Weapon.exampleInFlight.m_projectileArray.count p ∧
        (Weapon.exampleInFlight.m_projectileArray.Nodup →
          w'.m_projectileArray.count (p.onSimulation 2) = 1)) :=
  ⟨by norm_num, Weapon.onSimulation_projectiles Weapon.exampleInFlight 2 (by norm_num)⟩

/-! ## `App::destroyTarget` -/

/-- A valid `App::destroyTarget(index)`: it completes, and the target it read
at `index` together with the targets it leaves are the targets it found. -/
theorem App.destroyTarget_perm (app : App) (index : Int)
    (h0 : 0 ≤ index) (h1 : index < (app.m_targetArray.length : Int)) :
    ∃ target app', G3D.arrayIndex app.m_targetArray index = some target ∧
      app.destroyTarget index = some app' ∧
      (target :: app'.m_targetArray).Perm app.m_targetArray ∧
      app'.sceneEntities = Scene.removeEntity app.sceneEntities target.name := by
  have hlt : index.toNat < app.m_targetArray.length := by omega
  have hsplit : app.m_targetArray = app.m_targetArray.take index.toNat ++
      app.m_targetArray[index.toNat] :: app.m_targetArray.drop (index.toNat + 1) := by
    rw [List.getElem_cons_drop, List.take_append_drop]
  have hlen : ((app.m_targetArray.take index.toNat).length : Int) = index := by
    rw [List.length_take]
    omega
  have hidx := G3D.arrayIndex_append_cons (app.m_targetArray.take index.toNat)
    app.m_targetArray[index.toNat] (app.m_targetArray.drop (index.toNat + 1))
  have hrm := G3D.fastRemove_append_cons (app.m_targetArray.take index.toNat)
    app.m_targetArray[index.toNat] (app.m_targetArray.drop (index.toNat + 1))
  rw [← hsplit, hlen] at hidx hrm
  refine ⟨app.m_targetArray[index.toNat],
    { app with
      m_targetArray := app.m_targetArray.take index.toNat ++
        G3D.lastToFront (app.m_targetArray.drop (index.toNat + 1))
      sceneEntities := Scene.removeEntity app.sceneEntities app.m_targetArray[index.toNat].name },
    hidx, ?_, ?_, rfl⟩
  · simp only [App.destroyTarget, hidx, hrm]
  · show (app.m_targetArray[index.toNat] :: (app.m_targetArray.take index.toNat ++
      G3D.lastToFront (app.m_targetArray.drop (index.toNat + 1)))).Perm app.m_targetArray
    have hp : (app.m_targetArray[index.toNat] :: (app.m_targetArray.take index.toNat ++
        G3D.lastToFront (app.m_targetArray.drop (index.toNat + 1)))).Perm
        (app.m_targetArray.take index.toNat ++
          app.m_targetArray[index.toNat] :: app.m_targetArray.drop (index.toNat + 1)) :=
      (List.perm_middle.symm).trans
        (List.Perm.append_left _ ((G3D.swapLast_perm _).cons _))
    rw [← hsplit] at hp
    exact hp

/-- A sequence of valid `App::destroyTarget` calls completes, destroys one
target per call, and the destroyed targets together with the targets left are
the targets the sequence started from. -/
theorem App.destroyTargets_perm (indices : List Int) :
    ∀ app : App,
      (∀ (j : Nat) (i : Int), indices[j]? = some i →
        0 ≤ i ∧ i + (j : Int) < (app.m_targetArray.length : Int)) →
      ∃ app', app.destroyTargets indices = some app' ∧
        (app.destroyedTargets indices).length = indices.length ∧
        (app.destroyedTargets indices ++ app'.m_targetArray).Perm app.m_targetArray := by
  induction indices with
  | nil => intro app _; exact ⟨app, rfl, rfl, List.Perm.refl _⟩
  | cons i rest ih =>
    intro app hvalid
    obtain ⟨hi0, hi1⟩ := hvalid 0 i (by simp)
    obtain ⟨target, a1, hidx, hdestroy, hperm, -⟩ :=
      app.destroyTarget_perm i hi0 (by simpa using hi1)
    have hlen1 : a1.m_targetArray.length + 1 = app.m_targetArray.length := by
      simpa using hperm.length_eq
    obtain ⟨app', hrun, hcount, hperm'⟩ := ih a1 (by
      intro j i' hj
      obtain ⟨h0, h1⟩ := hvalid (j + 1) i' (by simpa using hj)
      refine ⟨h0, ?_⟩
      push_cast at h1
      omega)
    refine ⟨app', ?_, ?_, ?_⟩
    · simp only [App.destroyTargets, hdestroy]
      exact hrun
    · simp only [App.destroyedTargets, hidx, hdestroy, List.length_cons, hcount]
    · simp only [App.destroyedTargets, hidx, hdestroy, List.cons_append]
      exact (hperm'.cons target).trans hperm

/-- C4. On a collection of pairwise distinct targets, a `destroyTarget(index)`
with `0 ≤ index < size` completes and leaves a collection one smaller, without
the target that was at `index`, and holding every other target exactly once;
and any sequence of `n` such calls completes, leaves a collection smaller by
`n`, and no destroyed target is in it. -/
theorem App.destroyTarget_removes (app : App) (hnd : app.m_targetArray.Nodup) :
    (∀ index : Int, 0 ≤ index → index < (app.m_targetArray.length : Int) →
      ∃ target app', G3D.arrayIndex app.m_targetArray index = some target ∧
        app.destroyTarget index = some app' ∧
        app'.m_targetArray.length + 1 = app.m_targetArray.length ∧
        target ∉ app'.m_targetArray ∧
        (∀ t ∈ app.m_targetArray, t ≠ target → app'.m_targetArray.count t = 1) ∧
        (∀ t ∈ app'.m_targetArray, t ∈ app.m_targetArray) ∧
        target.name ∉ app'.sceneEntities) ∧
    (∀ indices : List Int,
      (∀ (j : Nat) (i : Int), indices[j]? = some i →
        0 ≤ i ∧ i + (j : Int) < (app.m_targetArray.length : Int)) →
      ∃ app', app.destroyTargets indices = some app' ∧
        (app.destroyedTargets indices).length = indices.length ∧
        app'.m_targetArray.length + indices.length = app.m_targetArray.length ∧
        (∀ t ∈ app.destroyedTargets indices, t ∉ app'.m_targetArray) ∧
        (∀ t ∈ app.m_targetArray, t ∉ app.destroyedTargets indices →
          app'.m_targetArray.count t = 1)) := by
  constructor
  · intro index h0 h1
    obtain ⟨target, app', hidx, hdestroy, hperm, hscene⟩ := app.destroyTarget_perm index h0 h1
    have hnd' : (target :: app'.m_targetArray).Nodup := hperm.nodup_iff.mpr hnd
    refine ⟨target, app', hidx, hdestroy, by simpa using hperm.length_eq,
      (List.nodup_cons.mp hnd').1, ?_, ?_, ?_⟩
    · intro t ht hne
      have hmem : t ∈ target :: app'.m_targetArray := hperm.mem_iff.mpr ht
      rcases List.mem_cons.mp hmem with h | h
      · exact absurd h hne
      · exact List.count_eq_one_of_mem (List.nodup_cons.mp hnd').2 h
    · intro t ht
      exact hperm.mem_iff.mp (List.mem_cons_of_mem _ ht)
    · rw [hscene]
      simp [Scene.removeEntity]
  · intro indices hvalid
    obtain ⟨app', hrun, hcount, hperm⟩ := App.destroyTargets_perm indices app hvalid
    have hnd' : (app.destroyedTargets indices ++ app'.m_targetArray).Nodup :=
      hperm.nodup_iff.mpr hnd
    refine ⟨app', hrun, hcount, ?_, ?_, ?_⟩
    · have := hperm.length_eq
      rw [List.length_append, hcount] at this
      omega
    · intro t ht hmem
      exact (List.nodup_append.mp hnd').2.2 ht hmem
    · intro t ht hnot
      have hmem : t ∈ app.destroyedTargets indices ++ app'.m_targetArray :=
        hperm.mem_iff.mpr ht
      rcases List.mem_append.mp hmem with h | h
      · exact absurd h hnot
      · exact List.count_eq_one_of_mem (List.nodup_append.mp hnd').2.1 h

/-- Witness of C4: three distinct targets. -/
theorem App.destroyTarget_removes_witness :
    App.exampleThreeTargets.m_targetArray.Nodup ∧
    (∀ index : Int, 0 ≤ index →
      index < (App.exampleThreeTargets.m_targetArray.length : Int) →
      ∃ target app', G3D.arrayIndex App.exampleThreeTargets.m_targetArray index = some target ∧
        App.exampleThreeTargets.destroyTarget index = some app' ∧
        app'.m_targetArray.length + 1 = App.exampleThreeTargets.m_targetArray.length ∧
        target ∉ app'.m_targetArray ∧
        (∀ t ∈ App.exampleThreeTargets.m_targetArray, t ≠ target →
          app'.m_targetArray.count t = 1) ∧
        (∀ t ∈ app'.m_targetArray, t ∈ App.exampleThreeTargets.m_targetArray) ∧
        target.name ∉ app'.sceneEntities) ∧
    (∀ indices : List Int,
      (∀ (j : Nat) (i : Int), indices[j]? = some i →
        0 ≤ i ∧ i + (j : Int) < (App.exampleThreeTargets.m_targetArray.length : Int)) →
      ∃ app', App.exampleThreeTargets.destroyTargets indices = some app' ∧
        (App.exampleThreeTargets.destroyedTargets indices).length = indices.length ∧
        app'.m_targetArray.length + indices.length =
          App.exampleThreeTargets.m_targetArray.length ∧
        (∀ t ∈ App.exampleThreeTargets.destroyedTargets indices, t ∉ app'.m_targetArray) ∧
        (∀ t ∈ App.exampleThreeTargets.m_targetArray,
          t ∉ App.exampleThreeTargets.destroyedTargets indices →
            app'.m_targetArray.count t = 1)) :=
  ⟨by decide, App.destroyTarget_removes App.exampleThreeTargets (by decide)⟩

/-- C8 as stated fails: on the empty collection `destroyTarget(0)` does not
complete, and neither do `destroyTarget(-1)` and `destroyTarget(3)` on a
collection of three targets. -/
theorem App.destroyTarget_outOfRange_counterexample :
    App.initial.destroyTarget 0 = none ∧
    App.initial.destroyTarget 0 ≠ some App.initial ∧
    App.exampleThreeTargets.destroyTarget (-1) = none ∧
    App.exampleThreeTargets.destroyTarget 3 = none := by
  decide

/-- C8 (amended). `destroyTarget(index)` has no bounds check of its own: the
call fails on the access `m_targetArray[index]` exactly when `index` is out of
range (`index < 0` or `index ≥ size`), and completes exactly when
`0 ≤ index < size`. -/
theorem App.destroyTarget_fails_iff (app : App) (index : Int) :
    (app.destroyTarget index = none ↔
      (index < 0 ∨ (app.m_targetArray.length : Int) ≤ index)) ∧
    ((∃ app', app.destroyTarget index = some app') ↔
      (0 ≤ index ∧ index < (app.m_targetArray.length : Int))) := by
  have hfail : (index < 0 ∨ (app.m_targetArray.length : Int) ≤ index) →
      app.destroyTarget index = none := by
    intro h
    have hnone := G3D.arrayIndex_eq_none.mpr h
    simp only [App.destroyTarget, hnone]
  constructor
  · constructor
    · intro h
      by_contra hin
      obtain ⟨_, app', _, hd, _⟩ := app.destroyTarget_perm index (by omega) (by omega)
      rw [hd] at h
      exact absurd h (by simp)
    · exact hfail
  · constructor
    · rintro ⟨app', h⟩
      by_contra hout
      have := hfail (by omega)
      rw [this] at h
      exact absurd h (by simp)
    · rintro ⟨h0, h1⟩
      obtain ⟨_, app', _, hd, _⟩ := app.destroyTarget_perm index h0 h1
      exact ⟨app', hd⟩

/-! ## `App::spawnTarget` -/

/-- The base of `App.scaleIndex` is the single-precision value of
`1.0f + TARGET_MODEL_ARRAY_SCALING`. -/
theorem App.scalingBase_eq :
    float32NearOne (1 + App.TARGET_MODEL_ARRAY_SCALING) = 9227469 / 8388608 := by
  have h : round ((1 + App.TARGET_MODEL_ARRAY_SCALING) * 8388608) = 9227469 := by
    rw [round_eq, Int.floor_eq_iff]
    norm_num [App.TARGET_MODEL_ARRAY_SCALING]
  rw [float32NearOne, h]
  norm_num

theorem Entity.intersect_of_not_nearer (rayHit : String → Option ℚ) (name : String)
    (c : WithTop ℚ) (h : ∀ d, rayHit name = some d → ¬ (((d : ℚ) : WithTop ℚ) < c)) :
    Entity.intersect rayHit name c = (false, c) := by
  unfold Entity.intersect
  cases hr : rayHit name with
  | none => rfl
  | some d => simp only [h d hr, if_false]

theorem Entity.intersect_of_nearer (rayHit : String → Option ℚ) (name : String)
    (c : WithTop ℚ) (d : ℚ) (hr : rayHit name = some d) (h : ((d : ℚ) : WithTop ℚ) < c) :
    Entity.intersect rayHit name c = (true, ((d : ℚ) : WithTop ℚ)) := by
  unfold Entity.intersect
  simp only [hr, h, if_true]

/-- The target loop over targets none of which is met nearer than `closest`
changes neither `closest` nor `closestIndex`. -/
theorem Weapon.targetLoop_no_hit (rayHit : String → Option ℚ) (targets : List TargetEntity) :
    ∀ (t : Int) (c : WithTop ℚ) (ci : Int),
      (∀ x ∈ targets, ∀ d, rayHit x.name = some d → ¬ (((d : ℚ) : WithTop ℚ) < c)) →
      Weapon.targetLoop rayHit targets t c ci = (c, ci) := by
  induction targets with
  | nil => intro t c ci _; rfl
  | cons x rest ih =>
    intro t c ci h
    have hx := Entity.intersect_of_not_nearer rayHit x.name c
      (h x (List.mem_cons_self _ _))
    simp only [Weapon.targetLoop, hx]
    exact ih (t + 1) c ci (fun y hy => h y (List.mem_cons_of_mem _ hy))

theorem Weapon.targetLoop_append (rayHit : String → Option ℚ) (pre post : List TargetEntity) :
    ∀ (t : Int) (c : WithTop ℚ) (ci : Int),
      Weapon.targetLoop rayHit (pre ++ post) t c ci =
        Weapon.targetLoop rayHit post (t + (pre.length : Int))
          (Weapon.targetLoop rayHit pre t c ci).1 (Weapon.targetLoop rayHit pre t c ci).2 := by
  induction pre with
  | nil => intro t c ci; simp [Weapon.targetLoop]
  | cons x rest ih =>
    intro t c ci
    have e : t + ((x :: rest).length : Int) = t + 1 + (rest.length : Int) := by
      simp only [List.length_cons]
      push_cast
      ring
    rw [e]
    rcases hx : Entity.intersect rayHit x.name c with ⟨b, c'⟩
    cases b with
    | true =>
      simp only [List.cons_append, Weapon.targetLoop, hx]
      exact ih (t + 1) c' t
    | false =>
      simp only [List.cons_append, Weapon.targetLoop, hx]
      exact ih (t + 1) c' ci

/-- No call of `Weapon::fire` assigns the reference parameters `hitDist` and
`hitInfo`: whatever the call does, both come back as the caller passed them. -/
theorem Weapon.fire_hitDist_untouched (w : Weapon) (rayHit : String → Option ℚ)
    (targets : List TargetEntity) (targetIdx : Int) (hitDist : ℚ) (hitInfo : HitInfo)
    (dontHit : List String) (r : FireResult)
    (h : w.fire rayHit targets targetIdx hitDist hitInfo dontHit = some r) :
    r.hitDist = hitDist ∧ r.hitInfo = hitInfo := by
  unfold Weapon.fire at h
  by_cases h1 : w.m_config.hitScan = true
  · simp only [h1, if_true] at h
    split_ifs at h with h2
    · split at h
      · exact absurd h (by simp)
      · cases h
        exact ⟨rfl, rfl⟩
    · cases h
      exact ⟨rfl, rfl⟩
  · simp only [h1] at h
    cases h
    exact ⟨rfl, rfl⟩

/-- The part of the hitscan hit report that `Weapon::fire` does deliver: when
the scene reports no hit and the look ray meets exactly the target at index
`i`, at distance `d`, the call returns that target and writes `i` to
`targetIdx`; the local `closest` ends at `d`, and `hitDist` is left as it
came. -/
theorem Weapon.fire_single_target (w : Weapon) (rayHit : String → Option ℚ)
    (pre post : List TargetEntity) (target : TargetEntity) (d : ℚ)
    (targetIdx : Int) (hitDist : ℚ) (hitInfo : HitInfo) (dontHit : List String)
    (hhs : w.m_config.hitScan = true)
    (hscene : (Scene.intersect rayHit
      ((dontHit ++ (pre ++ target :: post).map (fun t => t.name)) ++
        w.m_projectileArray.map (fun p => p.entity)) w.m_scene ⊤ none).1 = ⊤)
    (hhit : rayHit target.name = some d)
    (hpre : ∀ x ∈ pre, rayHit x.name = none)
    (hpost : ∀ x ∈ post, rayHit x.name = none) :
    ∃ r, w.fire rayHit (pre ++ target :: post) targetIdx hitDist hitInfo dontHit = some r ∧
      r.target = some target ∧ r.targetIdx = (pre.length : Int) ∧
      r.closest = some (((d : ℚ) : WithTop ℚ)) ∧ r.hitDist = hitDist := by
  have hloop : Weapon.targetLoop rayHit (pre ++ target :: post) 0 ⊤ (-1) =
      (((d : ℚ) : WithTop ℚ), (pre.length : Int)) := by
    rw [Weapon.targetLoop_append,
      Weapon.targetLoop_no_hit rayHit pre 0 ⊤ (-1)
        (fun x hx d' hd' => by rw [hpre x hx] at hd'; exact absurd hd' (by simp))]
    simp only [Weapon.targetLoop, zero_add,
      Entity.intersect_of_nearer rayHit target.name ⊤ d hhit (WithTop.coe_lt_top d)]
    exact Weapon.targetLoop_no_hit rayHit post _ _ _
      (fun x hx d' hd' => by rw [hpost x hx] at hd'; exact absurd hd' (by simp))
  have hidx : G3D.arrayIndex (pre ++ target :: post) (pre.length : Int) = some target :=
    G3D.arrayIndex_append_cons pre target post
  have hnn : (0 : Int) ≤ (pre.length : Int) := by omega
  refine ⟨{ weapon := w.createBullet ⊤, target := some target, targetIdx := (pre.length : Int),
            hitDist := hitDist, hitInfo := hitInfo,
            closest := some (((d : ℚ) : WithTop ℚ)) }, ?_, rfl, rfl, rfl, rfl⟩
  unfold Weapon.fire
  simp only [hhs, if_true, hscene, hloop, hnn, hidx]

/-- C6, the code at a failing input: a hitscan shot whose look ray meets the
only target at distance 5, in a scene that reports no hit, with the caller's
`hitDist` holding `-1`. The call returns the target and writes index 0, its
local `closest` ends at 5, but `hitDist` still holds `-1`. -/
theorem Weapon.fire_hitDist_not_written :
    (Scene.intersect rayAtTargetOnly ["target001"] Weapon.exampleHitscan.m_scene ⊤ none).1 = ⊤ ∧
    (Weapon.exampleHitscan.fire rayAtTargetOnly [{ name := "target001" }] (-1) (-1)
        { entity := none } []).map
      (fun r => (r.target, r.targetIdx, r.closest, r.hitDist)) =
    some (some { name := "target001" }, 0, some (((5 : ℚ) : WithTop ℚ)), -1) := by
  decide

/-- C7 as stated fails: with the only target listed in `dontHit`, a look ray
that meets the target at distance 5 and the wall at distance 10 still reports
the target, writes its index, and ends with `closest` at 5, although the scene
query, which leaves the target out, reports the wall at 10. -/
theorem Weapon.fire_dontHit_counterexample :
    (Scene.intersect rayAtTargetThenWall ["target001", "target001"]
      Weapon.exampleHitscan.m_scene ⊤ none) = ((((10 : ℚ) : WithTop ℚ)), some "wall") ∧
    (Weapon.exampleHitscan.fire rayAtTargetThenWall [{ name := "target001" }] (-1) (-1)
        { entity := none } ["target001"]).map
      (fun r => (r.target, r.targetIdx, r.closest)) =
    some (some { name := "target001" }, 0, some (((5 : ℚ) : WithTop ℚ))) := by
  decide

/-- C7 (amended). `dontHit` only narrows the scene query, and `fire` itself
adds every target to it: in a hitscan call whose `dontHit` holds every target
and in which no target is met nearer than the distance the scene query
reports, `fire` returns null and leaves `targetIdx` as it came, and `closest`
ends at the distance the scene query reported (the wall distance `d` when the
scene has a wall hit there). -/
theorem Weapon.fire_no_target_nearer (w : Weapon) (rayHit : String → Option ℚ)
    (targets : List TargetEntity) (targetIdx : Int) (hitDist : ℚ) (hitInfo : HitInfo)
    (dontHit : List String)
    (hhs : w.m_config.hitScan = true)
    (_hdont : ∀ t ∈ targets, t.name ∈ dontHit)
    (hnear : ∀ t ∈ targets, ∀ d, rayHit t.name = some d →
      ¬ (((d : ℚ) : WithTop ℚ) < (Scene.intersect rayHit
        ((dontHit ++ targets.map (fun t => t.name)) ++
          w.m_projectileArray.map (fun p => p.entity)) w.m_scene ⊤ none).1)) :
    ∃ r, w.fire rayHit targets targetIdx hitDist hitInfo dontHit = some r ∧
      r.target = none ∧ r.targetIdx = targetIdx ∧
      r.closest = some (Scene.intersect rayHit
        ((dontHit ++ targets.map (fun t => t.name)) ++
          w.m_projectileArray.map (fun p => p.entity)) w.m_scene ⊤ none).1 := by
  have hloop := Weapon.targetLoop_no_hit rayHit targets 0 _ (-1) hnear
  refine ⟨{ weapon := w.createBullet (Scene.intersect rayHit
              ((dontHit ++ targets.map (fun t => t.name)) ++
                w.m_projectileArray.map (fun p => p.entity)) w.m_scene ⊤ none).1,
            target := none, targetIdx := targetIdx, hitDist := hitDist, hitInfo := hitInfo,
            closest := some (Scene.intersect rayHit
              ((dontHit ++ targets.map (fun t => t.name)) ++
                w.m_projectileArray.map (fun p => p.entity)) w.m_scene ⊤ none).1 },
    ?_, rfl, rfl, rfl⟩
  unfold Weapon.fire
  simp only [hhs, if_true, hloop]
  have hneg : ¬ ((0 : Int) ≤ -1) := by decide
  simp only [hneg, if_false]

/-- Witness of C7: the only target stands behind the wall, at distance 15
against 10, and is listed in `dontHit`. -/
theorem Weapon.fire_no_target_nearer_witness :
    Weapon.exampleHitscan.m_config.hitScan = true ∧
    (∀ t ∈ [({ name := "target001" } : TargetEntity)], t.name ∈ ["target001"]) ∧
    (∀ t ∈ [({ name := "target001" } : TargetEntity)], ∀ d,
      rayAtWallThenTarget t.name = some d →
      ¬ (((d : ℚ) : WithTop ℚ) < (Scene.intersect rayAtWallThenTarget
        ((["target001"] ++ [({ name := "target001" } : TargetEntity)].map (fun t => t.name)) ++
          Weapon.exampleHitscan.m_projectileArray.map (fun p => p.entity))
        Weapon.exampleHitscan.m_scene ⊤ none).1)) ∧
    ∃ r, Weapon.exampleHitscan.fire rayAtWallThenTarget [{ name := "target001" }] (-1) (-1)
        { entity := none } ["target001"] = some r ∧
      r.target = none ∧ r.targetIdx = -1 ∧
      r.closest = some (Scene.intersect rayAtWallThenTarget
        ((["target001"] ++ [({ name := "target001" } : TargetEntity)].map (fun t => t.name)) ++
          Weapon.exampleHitscan.m_projectileArray.map (fun p => p.entity))
        Weapon.exampleHitscan.m_scene ⊤ none).1 :=
  have hnear : ∀ t ∈ [({ name := "target001" } : TargetEntity)], ∀ d,
      rayAtWallThenTarget t.name = some d →
      ¬ (((d : ℚ) : WithTop ℚ) < (Scene.intersect rayAtWallThenTarget
        ((["target001"] ++ [({ name := "target001" } : TargetEntity)].map (fun t => t.name)) ++
          Weapon.exampleHitscan.m_projectileArray.map (fun p => p.entity))
        Weapon.exampleHitscan.m_scene ⊤ none).1) := by
    intro t ht d hd
    rw [List.mem_singleton.mp ht] at hd
    have h15 : rayAtWallThenTarget "target001" = some 15 := by decide
    rw [show ({ name := "target001" } : TargetEntity).name = "target001" from rfl, h15] at hd
    cases hd
    decide
  ⟨rfl, by decide, hnear,
    Weapon.fire_no_target_nearer Weapon.exampleHitscan rayAtWallThenTarget
      [{ name := "target001" }] (-1) (-1) { entity := none } ["target001"]
      rfl (by decide) hnear⟩

/-! ## `App::onSimulation` -/

/-- The loop of `App::onSimulation`, entered at index `done.length` with the
projectiles `done` already visited and `todo` still ahead: it returns, leaves
the scene as it was, and the array it leaves is `done` together with the
projectiles of `todo` that have not expired, each animated once. -/
theorem App.onSimulationLoop_animated (now : ℚ) (fuel : Nat) :
    ∀ (todo done : List AppProjectile) (app : App),
      app.m_projectileArray = done ++ todo → todo.length < fuel →
      ∃ app', App.onSimulationLoop now fuel app (done.length : Int) = some app' ∧
        app'.sceneEntities = app.sceneEntities ∧
        app'.m_targetArray = app.m_targetArray ∧
        app'.m_projectileArray.Perm
          (done ++ (todo.filter (fun q => decide (now ≤ q.endTime))).map
            AppProjectile.animate) := by
  induction fuel with
  | zero => intro todo done app _ h; omega
  | succ fuel ih =>
    intro todo done app harr hfuel
    cases todo with
    | nil =>
      refine ⟨app, ?_, rfl, rfl, ?_⟩
      · have hnot : ¬ ((done.length : Int) < (app.m_projectileArray.length : Int)) := by
          rw [harr]; simp
        simp only [App.onSimulationLoop, hnot, if_false]
      · rw [harr]; simp
    | cons x rest =>
      have hlt : (done.length : Int) < (app.m_projectileArray.length : Int) := by
        rw [harr]
        simp only [List.length_append, List.length_cons]
        omega
      have hidx := G3D.arrayIndex_append_cons done x rest
      have hst := G3D.arrayStore_append_cons done x x.animate rest
      have hrm := G3D.fastRemove_append_cons done x rest
      rw [← harr] at hidx hst hrm
      by_cases hexp : x.endTime < now
      · obtain ⟨app', hrun, hs, ht, hperm⟩ := ih (G3D.lastToFront rest) done
          { app with m_projectileArray := done ++ G3D.lastToFront rest } rfl
          (by rw [(G3D.swapLast_perm rest).length_eq]; simp at hfuel; omega)
        refine ⟨app', ?_, hs, ht, ?_⟩
        · simp only [App.onSimulationLoop, hlt, if_true, hidx, hexp, hrm]
          rw [show ((done.length : Int) - 1 + 1) = (done.length : Int) by omega]
          exact hrun
        · refine hperm.trans (List.Perm.append_left done ?_)
          have hx : ¬ (now ≤ x.endTime) := not_le.mpr hexp
          simp only [List.filter_cons, hx, decide_False, Bool.false_eq_true, if_false]
          exact ((G3D.swapLast_perm rest).filter _).map _
      · obtain ⟨app', hrun, hs, ht, hperm⟩ := ih rest (done ++ [x.animate])
          { app with m_projectileArray := done ++ x.animate :: rest }
          (by simp) (by simp at hfuel; omega)
        refine ⟨app', ?_, hs, ht, ?_⟩
        · simp only [App.onSimulationLoop, hlt, if_true, hidx, hexp, if_false, hst]
          have e : ((done ++ [x.animate]).length : Int) = (done.length : Int) + 1 := by
            simp
          rw [e] at hrun
          exact hrun
        · have hx : now ≤ x.endTime := not_lt.mp hexp
          simp only [List.filter_cons, hx, decide_True, if_true, List.map_cons]
          simpa using hperm

theorem AppProjectile.animate_injective : Function.Injective AppProjectile.animate := by
  intro p q h
  obtain ⟨⟨pn, pm, pf⟩, pe⟩ := p
  obtain ⟨⟨qn, qm, qf⟩, qe⟩ := q
  simp only [AppProjectile.animate, AppProjectile.mk.injEq, VisibleEntity.mk.injEq] at h
  obtain ⟨⟨h1, h2, h3⟩, h4⟩ := h
  simp only [AppProjectile.mk.injEq, VisibleEntity.mk.injEq]
  exact ⟨⟨h1, h2, by linarith⟩, h4⟩

/-- C13. The pass of `App::onSimulation` at time `now` returns, and the array
it leaves is, as a multiset, the projectiles whose end time was `≥ now`, each
animated once (one unit along its look vector): the array shrinks by the
number of projectiles with end time `< now`, none of which is left, and every
other projectile is there, moved by exactly one unit, as often as it was in
the array before. -/
theorem App.onSimulation_pass (app : App) (now : ℚ) :
    ∃ app', app.onSimulation now = some app' ∧
      app'.m_projectileArray.Perm
        ((app.m_projectileArray.filter (fun q => decide (now ≤ q.endTime))).map
          AppProjectile.animate) ∧
      app'.m_projectileArray.length +
          (app.m_projectileArray.filter (fun q => decide (q.endTime < now))).length =
        app.m_projectileArray.length ∧
      (∀ p ∈ app.m_projectileArray, p.endTime < now →
        p ∉ app'.m_projectileArray ∧ p.animate ∉ app'.m_projectileArray) ∧
      (∀ p ∈ app.m_projectileArray, now ≤ p.endTime →
        p.animate ∈ app'.m_projectileArray ∧
        app'.m_projectileArray.count p.animate = app.m_projectileArray.count p ∧
        p.animate.endTime = p.endTime ∧ p.animate.entity.name = p.entity.name ∧
        p.animate.entity.frameOffset = p.entity.frameOffset + 1) ∧
      (∀ q ∈ app'.m_projectileArray,
        ∃ p ∈ app.m_projectileArray, now ≤ p.endTime ∧ q = p.animate) := by
  obtain ⟨app', hrun, -, -, hperm⟩ :=
    App.onSimulationLoop_animated now (app.m_projectileArray.length + 1) app.m_projectileArray [] app
      rfl (Nat.lt_succ_self _)
  have hperm' : app'.m_projectileArray.Perm
      ((app.m_projectileArray.filter (fun q => decide (now ≤ q.endTime))).map
        AppProjectile.animate) := by
    simpa using hperm
  have horigin : ∀ q ∈ app'.m_projectileArray,
      ∃ p ∈ app.m_projectileArray, now ≤ p.endTime ∧ q = p.animate := by
    intro q hq
    obtain ⟨p, hp, hpq⟩ := List.mem_map.mp (hperm'.mem_iff.mp hq)
    obtain ⟨hp1, hp2⟩ := List.mem_filter.mp hp
    exact ⟨p, hp1, by simpa using hp2, hpq.symm⟩
  have hlive : ∀ q ∈ app'.m_projectileArray, now ≤ q.endTime := by
    intro q hq
    obtain ⟨p, -, hp, rfl⟩ := horigin q hq
    exact hp
  refine ⟨app', hrun, hperm', ?_, ?_, ?_, horigin⟩
  · have h1 := hperm'.length_eq
    rw [List.length_map] at h1
    have h2 := List.length_eq_length_filter_add (l := app.m_projectileArray)
      (fun q => decide (now ≤ q.endTime))
    have h3 : (fun q : AppProjectile => !decide (now ≤ q.endTime)) =
        (fun q => decide (q.endTime < now)) := by
      funext q
      by_cases h : now ≤ q.endTime
      · simp [h, not_lt.mpr h]
      · simp [h, not_le.mp h]
    rw [h3] at h2
    omega
  · intro p _ hp
    constructor
    · intro hmem
      have := hlive p hmem
      linarith
    · intro hmem
      have := hlive _ hmem
      simp only [AppProjectile.animate] at this
      linarith
  · intro p hp hlive'
    have hcount : app'.m_projectileArray.count p.animate = app.m_projectileArray.count p := by
      rw [hperm'.count_eq,
        List.count_map_of_injective _ _ AppProjectile.animate_injective p,
        List.count_filter (by simpa using hlive')]
    refine ⟨?_, hcount, rfl, rfl, rfl⟩
    have h0 : 0 < app.m_projectileArray.count p := List.count_pos_iff.mpr hp
    exact List.count_pos_iff.mp (by omega)

/-! ## Expired projectiles and the scene -/

theorem Scene.removeEntity_subset (scene : List String) (name n : String)
    (h : n ∈ Scene.removeEntity scene name) : n ∈ scene :=
  (List.mem_filter.mp h).1

theorem Scene.not_mem_removeEntity (scene : List String) (name : String) :
    name ∉ Scene.removeEntity scene name := by
  simp [Scene.removeEntity]

/-- The loop of `Weapon::onSimulation` adds nothing to the scene, and the
entity of every projectile it finds expired is out of the scene it leaves. -/
theorem Weapon.onSimulationLoop_scene (rdt : ℚ) (fuel : Nat) :
    ∀ (todo done : List Projectile) (w w' : Weapon),
      w.m_projectileArray = done ++ todo →
      Weapon.onSimulationLoop rdt fuel w (done.length : Int) = some w' →
      (∀ n ∈ w'.m_scene, n ∈ w.m_scene) ∧
      (∀ p ∈ todo, (p.onSimulation rdt).remainingTime ≤ 0 → p.entity ∉ w'.m_scene) := by
  induction fuel with
  | zero =>
    intro todo done w w' _ h
    simp [Weapon.onSimulationLoop] at h
  | succ fuel ih =>
    intro todo done w w' harr hrun
    cases todo with
    | nil =>
      have hnot : ¬ ((done.length : Int) < (w.m_projectileArray.length : Int)) := by
        rw [harr]; simp
      simp only [Weapon.onSimulationLoop, hnot, if_false, Option.some.injEq] at hrun
      subst hrun
      exact ⟨fun n hn => hn, fun p hp => absurd hp (List.not_mem_nil p)⟩
    | cons x rest =>
      have hlt : (done.length : Int) < (w.m_projectileArray.length : Int) := by
        rw [harr]
        simp only [List.length_append, List.length_cons]
        omega
      have hidx := G3D.arrayIndex_append_cons done x rest
      have hst := G3D.arrayStore_append_cons done x (x.onSimulation rdt) rest
      rw [← harr] at hidx hst
      by_cases hexp : (x.onSimulation rdt).remainingTime ≤ 0
      · have hrm := G3D.fastRemove_append_cons done (x.onSimulation rdt) rest
        simp only [Weapon.onSimulationLoop, hlt, if_true, hidx, hst, hexp, hrm] at hrun
        rw [show ((done.length : Int) - 1 + 1) = (done.length : Int) by omega] at hrun
        obtain ⟨hsub, hgone⟩ := ih (G3D.lastToFront rest) done _ w' rfl hrun
        constructor
        · intro n hn
          exact Scene.removeEntity_subset _ _ _ (hsub n hn)
        · intro p hp hpexp
          rcases List.mem_cons.mp hp with rfl | hp'
          · intro hmem
            exact Scene.not_mem_removeEntity w.m_scene p.entity (hsub _ hmem)
          · exact hgone p ((G3D.swapLast_perm rest).mem_iff.mpr hp') hpexp
      · simp only [Weapon.onSimulationLoop, hlt, if_true, hidx, hst, hexp, if_false] at hrun
        have e : ((done ++ [x.onSimulation rdt]).length : Int) = (done.length : Int) + 1 := by
          simp
        rw [← e] at hrun
        obtain ⟨hsub, hgone⟩ := ih rest (done ++ [x.onSimulation rdt]) _ w' (by simp) hrun
        constructor
        · exact hsub
        · intro p hp hpexp
          rcases List.mem_cons.mp hp with rfl | hp'
          · exact absurd hpexp hexp
          · exact hgone p hp' hpexp

/-- The pass of `Weapon::onSimulation` does take the entity of every projectile
it removes as expired out of the scene. -/
theorem Weapon.onSimulation_scene (w w' : Weapon) (rdt : ℚ)
    (h : w.onSimulation rdt = some w') :
    ∀ p ∈ w.m_projectileArray, (p.onSimulation rdt).remainingTime ≤ 0 →
      p.entity ∉ w'.m_scene :=
  (Weapon.onSimulationLoop_scene rdt (w.m_projectileArray.length + 1)
    w.m_projectileArray [] w w' rfl h).2

/-- The pass of `App::onSimulation` never touches the scene. -/
theorem App.onSimulation_scene_untouched (app : App) (now : ℚ) :
    ∃ app', app.onSimulation now = some app' ∧ app'.sceneEntities = app.sceneEntities := by
  obtain ⟨app', hrun, hs, -, -⟩ :=
    App.onSimulationLoop_animated now (app.m_projectileArray.length + 1) app.m_projectileArray [] app
      rfl (Nat.lt_succ_self _)
  exact ⟨app', hrun, hs⟩

/-- C11, the code at a failing input: `App::onSimulation` at time 2 on a single
laser whose end time is 1. The pass removes the laser from the projectile
array, but its entity `laser001` is still in the scene afterwards. -/
theorem App.onSimulation_expired_entity_stays :
    (App.exampleExpiredLaser.onSimulation 2).map
      (fun a => (a.m_projectileArray, a.sceneEntities)) = some ([], ["laser001"]) ∧
    (App.exampleExpiredLaser.m_projectileArray.map (fun p => p.entity.name)) = ["laser001"] := by
  decide

/-! ## Closest-target selection -/

/-- The target loop from any start: either no target is met nearer than
`closest` and nothing changes, or the loop ends on the first target, in
collection order, of smallest hit distance. -/
theorem Weapon.targetLoop_spec (rayHit : String → Option ℚ) (targets : List TargetEntity) :
    ∀ (t : Int) (c : WithTop ℚ) (ci : Int),
      ((∀ x ∈ targets, ∀ d, rayHit x.name = some d → ¬ (((d : ℚ) : WithTop ℚ) < c)) ∧
        Weapon.targetLoop rayHit targets t c ci = (c, ci)) ∨
      (∃ (k : Nat) (x : TargetEntity) (d : ℚ), targets[k]? = some x ∧
        rayHit x.name = some d ∧ ((d : ℚ) : WithTop ℚ) < c ∧
        Weapon.targetLoop rayHit targets t c ci = (((d : ℚ) : WithTop ℚ), t + (k : Int)) ∧
        ∀ (j : Nat) (y : TargetEntity) (d' : ℚ), targets[j]? = some y →
          rayHit y.name = some d' → d ≤ d' ∧ (j < k → d < d')) := by
  induction targets with
  | nil =>
    intro t c ci
    exact Or.inl ⟨fun x hx => absurd hx (List.not_mem_nil x), rfl⟩
  | cons x rest ih =>
    intro t c ci
    by_cases hx : ∃ d0, rayHit x.name = some d0 ∧ ((d0 : ℚ) : WithTop ℚ) < c
    · obtain ⟨d0, hd0, hlt0⟩ := hx
      have hstep : Weapon.targetLoop rayHit (x :: rest) t c ci =
          Weapon.targetLoop rayHit rest (t + 1) ((d0 : ℚ) : WithTop ℚ) t := by
        simp only [Weapon.targetLoop, Entity.intersect_of_nearer rayHit x.name c d0 hd0 hlt0]
      right
      rcases ih (t + 1) ((d0 : ℚ) : WithTop ℚ) t with ⟨hnone, hres⟩ | ⟨k, y, d, hk, hd, hlt, hres, hmin⟩
      · refine ⟨0, x, d0, by simp, hd0, hlt0, ?_, ?_⟩
        · rw [hstep, hres]
          simp
        · intro j z d' hj hz
          cases j with
          | zero =>
            simp only [List.getElem?_cons_zero, Option.some.injEq] at hj
            subst hj
            rw [hd0] at hz
            cases hz
            exact ⟨le_refl _, fun h => absurd h (lt_irrefl 0)⟩
          | succ j =>
            simp only [List.getElem?_cons_succ] at hj
            have hmem : z ∈ rest := List.getElem?_mem hj
            have h1 := hnone z hmem d' hz
            rw [WithTop.coe_lt_coe] at h1
            exact ⟨not_lt.mp h1, fun h => absurd h (Nat.not_lt_zero _)⟩
      · have hdd0 : d < d0 := WithTop.coe_lt_coe.mp hlt
        refine ⟨k + 1, y, d, by simpa using hk, hd, lt_trans hlt hlt0, ?_, ?_⟩
        · rw [hstep, hres]
          simp only [Prod.mk.injEq, true_and]
          push_cast
          ring
        · intro j z d' hj hz
          cases j with
          | zero =>
            simp only [List.getElem?_cons_zero, Option.some.injEq] at hj
            subst hj
            rw [hd0] at hz
            cases hz
            exact ⟨le_of_lt hdd0, fun _ => hdd0⟩
          | succ j =>
            simp only [List.getElem?_cons_succ] at hj
            obtain ⟨h1, h2⟩ := hmin j z d' hj hz
            exact ⟨h1, fun h => h2 (by omega)⟩
    · have hx' : ∀ d, rayHit x.name = some d → ¬ (((d : ℚ) : WithTop ℚ) < c) :=
        fun d hd hlt => hx ⟨d, hd, hlt⟩
      have hstep : Weapon.targetLoop rayHit (x :: rest) t c ci =
          Weapon.targetLoop rayHit rest (t + 1) c ci := by
        simp only [Weapon.targetLoop, Entity.intersect_of_not_nearer rayHit x.name c hx']
      rcases ih (t + 1) c ci with ⟨hnone, hres⟩ | ⟨k, y, d, hk, hd, hlt, hres, hmin⟩
      · left
        refine ⟨?_, by rw [hstep, hres]⟩
        intro z hz
        rcases List.mem_cons.mp hz with rfl | hz'
        · exact hx'
        · exact hnone z hz'
      · right
        refine ⟨k + 1, y, d, by simpa using hk, hd, hlt, ?_, ?_⟩
        · rw [hstep, hres]
          simp only [Prod.mk.injEq, true_and]
          push_cast
          ring
        · intro j z d' hj hz
          cases j with
          | zero =>
            simp only [List.getElem?_cons_zero, Option.some.injEq] at hj
            subst hj
            have h1 : c ≤ ((d' : ℚ) : WithTop ℚ) := not_lt.mp (hx' d' hz)
            have h2 : d < d' := WithTop.coe_lt_coe.mp (lt_of_lt_of_le hlt h1)
            exact ⟨le_of_lt h2, fun _ => h2⟩
          | succ j =>
            simp only [List.getElem?_cons_succ] at hj
            obtain ⟨h1, h2⟩ := hmin j z d' hj hz
            exact ⟨h1, fun h => h2 (by omega)⟩

/-- The loop of `App::onUserInput` is the loop of `Weapon::fire` run on the
same entity names. -/
theorem App.targetLoop_eq (rayHit : String → Option ℚ) (targets : List VisibleEntity) :
    ∀ (t : Int) (c : WithTop ℚ) (ci : Int),
      App.targetLoop rayHit targets t c ci =
        Weapon.targetLoop rayHit (targets.map (fun e => ({ name := e.name } : TargetEntity)))
          t c ci := by
  induction targets with
  | nil => intro t c ci; rfl
  | cons x rest ih =>
    intro t c ci
    rcases hx : Entity.intersect rayHit x.name c with ⟨b, c'⟩
    cases b with
    | true =>
      simp only [List.map_cons, App.targetLoop, Weapon.targetLoop, hx]
      exact ih (t + 1) c' t
    | false =>
      simp only [List.map_cons, App.targetLoop, Weapon.targetLoop, hx]
      exact ih (t + 1) c' ci

/-- The hitscan loop of `Weapon::fire` from `closestIndex = -1`. -/
theorem Weapon.targetLoop_closest (rayHit : String → Option ℚ)
    (targets : List TargetEntity) (c0 : WithTop ℚ) :
    ((Weapon.targetLoop rayHit targets 0 c0 (-1)).2 = -1 ↔
      ∀ x ∈ targets, ∀ d, rayHit x.name = some d → ¬ (((d : ℚ) : WithTop ℚ) < c0)) ∧
    ((Weapon.targetLoop rayHit targets 0 c0 (-1)).2 = -1 →
      (Weapon.targetLoop rayHit targets 0 c0 (-1)).1 = c0) ∧
    ((Weapon.targetLoop rayHit targets 0 c0 (-1)).2 ≠ -1 →
      ∃ (k : Nat) (x : TargetEntity) (d : ℚ),
        (Weapon.targetLoop rayHit targets 0 c0 (-1)).2 = (k : Int) ∧ k < targets.length ∧
        targets[k]? = some x ∧ rayHit x.name = some d ∧ ((d : ℚ) : WithTop ℚ) < c0 ∧
        (Weapon.targetLoop rayHit targets 0 c0 (-1)).1 = ((d : ℚ) : WithTop ℚ) ∧
        ∀ (j : Nat) (y : TargetEntity) (d' : ℚ), targets[j]? = some y →
          rayHit y.name = some d' → d ≤ d' ∧ (j < k → d < d')) := by
  rcases Weapon.targetLoop_spec rayHit targets 0 c0 (-1) with
    ⟨hnone, hres⟩ | ⟨k, x, d, hk, hd, hlt, hres, hmin⟩
  · rw [hres]
    exact ⟨⟨fun _ => hnone, fun _ => rfl⟩, fun _ => rfl, fun h => absurd rfl h⟩
  · rw [hres]
    have hklt : k < targets.length := by
      by_contra hge
      rw [List.getElem?_eq_none (by omega)] at hk
      exact absurd hk (by simp)
    have hne : (0 : Int) + (k : Int) ≠ -1 := by omega
    refine ⟨⟨fun h => absurd h hne, fun h => ?_⟩, fun h => absurd h hne, fun _ => ?_⟩
    · exact absurd hlt (h x (List.getElem?_mem hk) d hd)
    · exact ⟨k, x, d, by simp, hklt, hk, hd, hlt, rfl, hmin⟩

/-- C12 as stated fails: two targets met at the same distance 5, at indices 0
and 1. Both loops end with `closestIndex = 0`, the first of the two, not the
last. -/
theorem hitscan_tie_counterexample :
    rayAtTwoTargets "target001" = some 5 ∧ rayAtTwoTargets "target002" = some 5 ∧
    Weapon.targetLoop rayAtTwoTargets [{ name := "target001" }, { name := "target002" }]
      0 ⊤ (-1) = ((((5 : ℚ) : WithTop ℚ)), 0) ∧
    App.targetLoop rayAtTwoTargets
      [{ name := "target001", model := { scaleExponent := 0 } },
       { name := "target002", model := { scaleExponent := 0 } }]
      0 ⊤ (-1) = ((((5 : ℚ) : WithTop ℚ)), 0) := by
  decide

/-- The hitscan loop of `App::onUserInput` from `closest = +∞` and
`closestIndex = -1`. -/
theorem App.targetLoop_closest_from_top (rayHit : String → Option ℚ) (targets : List VisibleEntity) :
    ((App.targetLoop rayHit targets 0 ⊤ (-1)).2 = -1 ↔
      ∀ x ∈ targets, rayHit x.name = none) ∧
    ((App.targetLoop rayHit targets 0 ⊤ (-1)).2 = -1 →
      (App.targetLoop rayHit targets 0 ⊤ (-1)).1 = ⊤) ∧
    ((App.targetLoop rayHit targets 0 ⊤ (-1)).2 ≠ -1 →
      ∃ (k : Nat) (x : VisibleEntity) (d : ℚ),
        (App.targetLoop rayHit targets 0 ⊤ (-1)).2 = (k : Int) ∧ k < targets.length ∧
        targets[k]? = some x ∧ rayHit x.name = some d ∧
        (App.targetLoop rayHit targets 0 ⊤ (-1)).1 = ((d : ℚ) : WithTop ℚ) ∧
        ∀ (j : Nat) (y : VisibleEntity) (d' : ℚ), targets[j]? = some y →
          rayHit y.name = some d' → d ≤ d' ∧ (j < k → d < d')) := by
  obtain ⟨h1, h2, h3⟩ := Weapon.targetLoop_closest rayHit
    (targets.map (fun e => ({ name := e.name } : TargetEntity))) ⊤
  rw [← App.targetLoop_eq] at h1 h2 h3
  refine ⟨?_, h2, ?_⟩
  · rw [h1]
    constructor
    · intro h x hx
      cases hr : rayHit x.name with
      | none => rfl
      | some d =>
        exact absurd (WithTop.coe_lt_top d)
          (h { name := x.name } (List.mem_map.mpr ⟨x, hx, rfl⟩) d hr)
    · intro h y hy d hd
      obtain ⟨x, hx, rfl⟩ := List.mem_map.mp hy
      rw [h x hx] at hd
      exact absurd hd (by simp)
  · intro hne
    obtain ⟨k, y, d, hk1, hk2, hk3, hk4, -, hk6, hmin⟩ := h3 hne
    rw [List.length_map] at hk2
    rw [List.getElem?_map] at hk3
    obtain ⟨x, hx, rfl⟩ := Option.map_eq_some'.mp hk3
    refine ⟨k, x, d, hk1, hk2, hx, hk4, hk6, ?_⟩
    intro j z d' hj hz
    exact hmin j { name := z.name } d' (by rw [List.getElem?_map, hj]; rfl) hz

/-- C12 (amended). With `intersect` true only for a hit nearer than the current
`closest`, which it then lowers to the hit distance: the hitscan loop of
`Weapon::fire` (from any initial `closest`) and that of `App::onUserInput`
(from `+∞`) end with `closestIndex = -1` exactly when no target is hit nearer
than the initial `closest`, which is then unchanged; otherwise `closestIndex`
is a valid index, `closest` is the hit distance of the target there, no target
is hit nearer than that, and every target before it in collection order is hit
strictly farther, so among targets at the same distance the first is taken. -/
theorem hitscan_closest_first (rayHit : String → Option ℚ) :
    (∀ (targets : List TargetEntity) (c0 : WithTop ℚ),
      ((Weapon.targetLoop rayHit targets 0 c0 (-1)).2 = -1 ↔
        ∀ x ∈ targets, ∀ d, rayHit x.name = some d → ¬ (((d : ℚ) : WithTop ℚ) < c0)) ∧
      ((Weapon.targetLoop rayHit targets 0 c0 (-1)).2 = -1 →
        (Weapon.targetLoop rayHit targets 0 c0 (-1)).1 = c0) ∧
      ((Weapon.targetLoop rayHit targets 0 c0 (-1)).2 ≠ -1 →
        ∃ (k : Nat) (x : TargetEntity) (d : ℚ),
          (Weapon.targetLoop rayHit targets 0 c0 (-1)).2 = (k : Int) ∧ k < targets.length ∧
          targets[k]? = some x ∧ rayHit x.name = some d ∧ ((d : ℚ) : WithTop ℚ) < c0 ∧
          (Weapon.targetLoop rayHit targets 0 c0 (-1)).1 = ((d : ℚ) : WithTop ℚ) ∧
          ∀ (j : Nat) (y : TargetEntity) (d' : ℚ), targets[j]? = some y →
            rayHit y.name = some d' → d ≤ d' ∧ (j < k → d < d'))) ∧
    (∀ (targets : List VisibleEntity),
      ((App.targetLoop rayHit targets 0 ⊤ (-1)).2 = -1 ↔
        ∀ x ∈ targets, rayHit x.name = none) ∧
      ((App.targetLoop rayHit targets 0 ⊤ (-1)).2 = -1 →
        (App.targetLoop rayHit targets 0 ⊤ (-1)).1 = ⊤) ∧
      ((App.targetLoop rayHit targets 0 ⊤ (-1)).2 ≠ -1 →
        ∃ (k : Nat) (x : VisibleEntity) (d : ℚ),
          (App.targetLoop rayHit targets 0 ⊤ (-1)).2 = (k : Int) ∧ k < targets.length ∧
          targets[k]? = some x ∧ rayHit x.name = some d ∧
          (App.targetLoop rayHit targets 0 ⊤ (-1)).1 = ((d : ℚ) : WithTop ℚ) ∧
          ∀ (j : Nat) (y : VisibleEntity) (d' : ℚ), targets[j]? = some y →
            rayHit y.name = some d' → d ≤ d' ∧ (j < k → d < d'))) := by
  exact ⟨fun targets c0 => Weapon.targetLoop_closest rayHit targets c0,
    fun targets => App.targetLoop_closest_from_top rayHit targets⟩

/-- The index `Weapon::fire` reads `targets` at is in bounds: every call
returns. -/
theorem Weapon.fire_returns (w : Weapon) (rayHit : String → Option ℚ)
    (targets : List TargetEntity) (targetIdx : Int) (hitDist : ℚ) (hitInfo : HitInfo)
    (dontHit : List String) :
    ∃ r, w.fire rayHit targets targetIdx hitDist hitInfo dontHit = some r := by
  unfold Weapon.fire
  by_cases hhs : w.m_config.hitScan = true
  · simp only [hhs, if_true]
    obtain ⟨-, -, h3⟩ := Weapon.targetLoop_closest rayHit targets
      (Scene.intersect rayHit
        ((dontHit ++ targets.map (fun t => t.name)) ++
          w.m_projectileArray.map (fun p => p.entity)) w.m_scene ⊤ none).1
    split_ifs with h0
    · obtain ⟨k, x, d, hk1, hk2, hk3, -⟩ := h3 (by omega)
      have hidx : G3D.arrayIndex targets
          (Weapon.targetLoop rayHit targets 0
            (Scene.intersect rayHit
              ((dontHit ++ targets.map (fun t => t.name)) ++
                w.m_projectileArray.map (fun p => p.entity)) w.m_scene ⊤ none).1 (-1)).2 =
          some x := by
        rw [hk1, G3D.arrayIndex_eq_some]
        exact ⟨by omega, by simpa using hk3⟩
      rw [hidx]
      exact ⟨_, rfl⟩
    · exact ⟨_, rfl⟩
  · simp only [hhs]
    exact ⟨_, rfl⟩

/-- The index `App::onUserInput` passes to `destroyTarget` is in bounds: every
call returns. -/
theorem App.onUserInput_returns (app : App) (debugControllerEnabled leftMousePressed : Bool)
    (rayHit : String → Option ℚ) (laserModel : ArticulatedModel) (time : ℚ) :
    ∃ app', app.onUserInput debugControllerEnabled leftMousePressed rayHit laserModel time =
      some app' := by
  unfold App.onUserInput
  by_cases hfire : (debugControllerEnabled && leftMousePressed) = true
  · have key : ∃ a, (if app.m_hitScan = true then
          (if 0 ≤ (App.targetLoop rayHit app.m_targetArray 0 ⊤ (-1)).2 then
            app.destroyTarget (App.targetLoop rayHit app.m_targetArray 0 ⊤ (-1)).2
          else some app)
        else some app) = some a := by
      split_ifs with hhs h0
      · obtain ⟨-, -, h3⟩ := App.targetLoop_closest_from_top rayHit app.m_targetArray
        obtain ⟨k, x, d, hk1, hk2, -⟩ := h3 (by omega)
        obtain ⟨_, a, _, hd, _⟩ := app.destroyTarget_perm
          (App.targetLoop rayHit app.m_targetArray 0 ⊤ (-1)).2 (by omega) (by omega)
        exact ⟨a, hd⟩
      · exact ⟨app, rfl⟩
      · exact ⟨app, rfl⟩
    obtain ⟨a, ha⟩ := key
    simp only [hfire, if_true, ha]
    by_cases hr : a.m_renderHitscan = true
    · simp only [hr, if_true]
      exact ⟨_, rfl⟩
    · simp only [hr]
      exact ⟨_, rfl⟩
  · simp only [hfire]
    exact ⟨_, rfl⟩

end FPSci
